import Mathlib

/-!
# Thymos journal: entry store and derived analytics

A shallow embedding of `src/context/AppContext.js` (the entry repository kept by
`AppProvider`) and of the streak computation of `src/screens/DashboardScreen.js`.

Modelling conventions.

* A timestamp is the instant (milliseconds since 1970-01-01T00:00:00Z) that the ISO-8601
  text written by `new Date().toISOString()` denotes; `new Date(entry.timestamp)` is that
  instant again.
* A calendar date text (`YYYY-MM-DD`) is identified with the number of the day it names,
  counted from 1970-01-01: one text per day number, so set membership and object-key
  equality on the texts are equality of day numbers.
* Where one instant is read as a local day, weekday or month, the local time zone is the
  offset `off` in milliseconds, local time = UTC + `off`. The streak walk, which steps from
  one local midnight to the previous one, is given twice: for a zone whose offset is `off`
  throughout (`streak`) and for a zone whose offset changes at listed instants (`Zone`,
  `streakIn`), the first being the second on `fixedZone off`. Instants are unbounded
  integers.
* The calendar of the built-in `Date` is `civilFromDays`; it is compared with the rules of
  the Gregorian calendar (`isLeapYear`, `daysInMonth`, `nextDay`).
* `AsyncStorage.setItem`, `AsyncStorage.getItem` and `uuid.v4()` belong to the environment:
  the outcome of the write, what the read yields and the generated identifier are parameters
  of the operations.
* A JSON text is given by the value it denotes (`Json`); the characters of the text and
  their escaping are not modelled. A month key text is identified with the pair of year and
  month number it is written from.
-/

namespace Thymos

/-! ## Data model -/

/-- The `image` property of an entry: `addEntry` stores whatever `imageUri` it is given,
which is `undefined` when the argument is omitted, `null` when the form has no photo, or
the URI text of the picked photo. -/
inductive ImageRef where
  | undefined
  | null
  | uri (path : String)
deriving DecidableEq, Repr

/-- One journal entry, the object literal built in `addEntry`. -/
structure Entry where
  id : String
  content : String
  mood : String
  image : ImageRef
  timestamp : Int
deriving DecidableEq, Repr

/-- One element of `moodOptions`. -/
structure MoodOption where
  value : String
  label : String
  emoji : String
  color : String
deriving DecidableEq, Repr

/-- The table `moodOptions` of `AppProvider`. -/
def moodOptions : List MoodOption :=
  [ ⟨"amazing", "Amazing", "😁", "#10b981"⟩,
    ⟨"good", "Good", "😊", "#60a5fa"⟩,
    ⟨"okay", "Okay", "😐", "#fbbf24"⟩,
    ⟨"poor", "Poor", "😔", "#f87171"⟩,
    ⟨"terrible", "Terrible", "😭", "#ef4444"⟩ ]

/-- The state of `AppProvider` (`entries`, `loading`, `error`) together with what the
store holds under the key `journalEntries`: `stored = some es` when the last successful
`setItem` wrote `JSON.stringify es`, `none` when nothing was written yet. -/
structure AppState where
  entries : List Entry
  loading : Bool
  error : Option String
  stored : Option (List Entry)
deriving DecidableEq, Repr

/-! ## Calendar arithmetic -/

/-- Milliseconds in one day. -/
def msPerDay : Int := 86400000

/-- The date part of the ISO text of an instant, `t.toISOString().split('T')[0]`: the UTC
calendar day of `t`. -/
def utcDate (t : Int) : Int := t / msPerDay

/-- The local calendar day of an instant, as `toLocaleDateString('en-CA')`, `getDate()`,
`getMonth()` and `getFullYear()` see it in a zone `off` milliseconds ahead of UTC. -/
def localDate (off t : Int) : Int := (t + off) / msPerDay

/-- The effect of `setHours(0, 0, 0, 0)` in a zone whose offset is `off` throughout: the
instant of local midnight of the local day of `t`. The form for a zone whose offset changes
is `setHoursZeroIn`. -/
def setHoursZero (off t : Int) : Int := localDate off t * msPerDay - off

/-- The effect of `checkDate.setDate(checkDate.getDate() - 1)` in a zone whose offset does
not change: the same local wall-clock time one local calendar day earlier, which is then
one day earlier as an instant. The form for a zone whose offset changes is
`setDatePrevIn`. -/
def setDatePrev (t : Int) : Int := t - msPerDay

/-! ## Dashboard streak (`DashboardScreen.js`, `stats`) -/

/-- The set `datesWithEntries`: the date part of every entry's timestamp text. -/
def datesWithEntries (entries : List Entry) : List Int :=
  entries.map (fun entry => utcDate entry.timestamp)

/-- The `while (true)` loop of the streak computation in a zone whose offset does not
change. `checkDate` is the cursor instant and `currentStreak` the counter: when the date part
of `checkDate.toISOString()` is in the set the counter is incremented and the cursor moves
back one day, otherwise the loop breaks. The loop in a zone whose offset changes is
`streakLoopIn`. -/
def streakLoop (dates : List Int) (checkDate : Int) (currentStreak : Nat) : Nat :=
  if h : utcDate checkDate ∈ dates then
    streakLoop dates (setDatePrev checkDate) (currentStreak + 1)
  else
    currentStreak
termination_by (dates.filter (fun x => decide (x ≤ utcDate checkDate))).length
decreasing_by
  have hprev : utcDate (setDatePrev checkDate) = utcDate checkDate - 1 := by
    unfold utcDate setDatePrev msPerDay
    omega
  have key : ∀ (l : List Int) (d : Int), d ∈ l →
      (l.filter (fun x => decide (x ≤ d - 1))).length
        < (l.filter (fun x => decide (x ≤ d))).length := by
    intro l d
    induction l with
    | nil => intro hd; simp at hd
    | cons a t ih =>
      intro hd
      have hmono : (t.filter (fun x => decide (x ≤ d - 1))).length
          ≤ (t.filter (fun x => decide (x ≤ d))).length := by
        have hsub : List.Sublist (t.filter (fun x => decide (x ≤ d - 1)))
            (t.filter (fun x => decide (x ≤ d))) := by
          apply List.monotone_filter_right
          intro x hx
          simp only [decide_eq_true_eq] at hx ⊢
          omega
        exact hsub.length_le
      by_cases h1 : a ≤ d - 1
      · have h2 : a ≤ d := by omega
        have hne : d ≠ a := by omega
        have hmem : d ∈ t := by
          rcases List.mem_cons.1 hd with h3 | h3
          · exact absurd h3 hne
          · exact h3
        have := ih hmem
        simp only [List.filter_cons, h1, h2, decide_True, if_true, List.length_cons]
        omega
      · by_cases h2 : a ≤ d
        · simp only [List.filter_cons, h1, h2, decide_True, decide_False, if_true,
            List.length_cons]
          simp only [Bool.false_eq_true, if_false]
          omega
        · have hne : d ≠ a := by omega
          have hmem : d ∈ t := by
            rcases List.mem_cons.1 hd with h3 | h3
            · exact absurd h3 hne
            · exact h3
          have := ih hmem
          simp only [List.filter_cons, h1, h2, decide_False]
          simpa using this
  rw [hprev]
  exact key dates (utcDate checkDate) h

/-- The `streak` field of `stats` in a zone whose offset is `off` throughout: 0 when there
are no entries, otherwise the count of the loop started at local midnight of the current
instant `now`. In a zone whose offset changes it is `streakIn`. -/
def streak (off now : Int) (entries : List Entry) : Nat :=
  if entries.length > 0 then
    streakLoop (datesWithEntries entries) (setHoursZero off now) 0
  else
    0

/-! ## The streak walk in a zone whose offset changes -/

/-- A time zone: `base` is the offset (milliseconds ahead of UTC) in force before the first
change, and `changes` lists the changes in increasing order of time, each as the instant from
which it holds and the offset from then on. -/
structure Zone where
  base : Int
  changes : List (Int × Int)
deriving DecidableEq, Repr

/-- The zone whose offset is `off` throughout. -/
def fixedZone (off : Int) : Zone := { base := off, changes := [] }

/-- The offset in force at the instant `t`, `off` being the offset before the listed
changes. -/
def offsetAtFrom (off : Int) (changes : List (Int × Int)) (t : Int) : Int :=
  match changes with
  | [] => off
  | (start, newOff) :: rest => if t < start then off else offsetAtFrom newOff rest t

/-- The offset by which the local time value `wall` is read as an instant, `off` being the
offset before the listed changes. A local time before a change is read with the offset
before it; so is a local time that the change repeats, and one that the change skips (the
rule of ECMAScript for `LocalTZA` of a local time). -/
def offsetOfLocalFrom (off : Int) (changes : List (Int × Int)) (wall : Int) : Int :=
  match changes with
  | [] => off
  | (start, newOff) :: rest =>
    if wall - off < start then off
    else if wall - newOff < start then off
    else offsetOfLocalFrom newOff rest wall

/-- The local time value of an instant, `LocalTime(t)`. -/
def localTime (zone : Zone) (t : Int) : Int := t + offsetAtFrom zone.base zone.changes t

/-- The instant of a local time value, `UTC(wall)`. -/
def utcOfLocal (zone : Zone) (wall : Int) : Int :=
  wall - offsetOfLocalFrom zone.base zone.changes wall

/-- The effect of `setHours(0, 0, 0, 0)`: the instant of the local time value that has the
local day of `t` and the time 00:00:00.000. -/
def setHoursZeroIn (zone : Zone) (t : Int) : Int :=
  utcOfLocal zone (localTime zone t / msPerDay * msPerDay)

/-- The effect of `checkDate.setDate(checkDate.getDate() - 1)`: the instant of the local
time value that has the previous local calendar day and the same time of day. -/
def setDatePrevIn (zone : Zone) (t : Int) : Int :=
  utcOfLocal zone (localTime zone t - msPerDay)

/-- The `while (true)` loop of the streak computation, run for at most `fuel` tests of the
cursor: `some n` when the loop breaks with the counter at `n`, `none` when `fuel` tests did
not reach the `break`. -/
def streakLoopIn (zone : Zone) (dates : List Int) (fuel : Nat) (checkDate : Int)
    (currentStreak : Nat) : Option Nat :=
  match fuel with
  | 0 => none
  | fuel + 1 =>
    if utcDate checkDate ∈ dates then
      streakLoopIn zone dates fuel (setDatePrevIn zone checkDate) (currentStreak + 1)
    else
      some currentStreak

/-- The `streak` field of `stats` in the zone `zone`, the loop being run for at most `fuel`
tests. -/
def streakIn (zone : Zone) (fuel : Nat) (now : Int) (entries : List Entry) : Option Nat :=
  if entries.length > 0 then
    streakLoopIn zone (datesWithEntries entries) fuel (setHoursZeroIn zone now) 0
  else
    some 0

/-! ## Entry repository (`AppContext.js`) -/

/-- The function `saveEntries`: `writeError` is the outcome of `AsyncStorage.setItem`,
`none` when the write resolves and `some err` when it rejects with `err`. A failed write
sets the error message and rethrows; the document in the store is then the old one. -/
def saveEntries (writeError : Option String) (s : AppState) (updatedEntries : List Entry) :
    AppState × Except String Unit :=
  match writeError with
  | none => ({ s with stored := some updatedEntries }, Except.ok ())
  | some err =>
    ({ s with error := some "Failed to save your journal entries" }, Except.error err)

/-- The function `addEntry`. `now` is the instant read by `new Date()` and `uuid` the text
returned by `uuid.v4()`. The result is the returned id, or the rethrown error. -/
def addEntry (now : Int) (uuid : String) (writeError : Option String) (s : AppState)
    (content mood : String) (imageUri : ImageRef) : AppState × Except String String :=
  let newEntry : Entry :=
    { id := uuid, content := content, mood := mood, image := imageUri, timestamp := now }
  let updatedEntries := s.entries ++ [newEntry]
  match saveEntries writeError { s with entries := updatedEntries } updatedEntries with
  | (s', Except.ok _) => (s', Except.ok newEntry.id)
  | (s', Except.error err) =>
    ({ s' with error := some "Failed to save your journal entry" }, Except.error err)

/-- The argument `updates` of `updateEntry`: for each of the five properties of an entry,
`some v` when the object has that own property with value `v`, `none` when it has not. -/
structure Updates where
  id : Option String
  content : Option String
  mood : Option String
  image : Option ImageRef
  timestamp : Option Int
deriving DecidableEq, Repr

/-- The object spread `{ ...entry, ...updates }`: every property present in `updates`
overrides the one of `entry`. -/
def spread (entry : Entry) (updates : Updates) : Entry :=
  { id := updates.id.getD entry.id,
    content := updates.content.getD entry.content,
    mood := updates.mood.getD entry.mood,
    image := updates.image.getD entry.image,
    timestamp := updates.timestamp.getD entry.timestamp }

/-- The object literal `{ content: X }`. -/
def contentUpdate (X : String) : Updates :=
  { id := none, content := some X, mood := none, image := none, timestamp := none }

/-- The object literal `{ content, mood: selectedMood, image }` that the edit form passes. -/
def formUpdate (content selectedMood : String) (image : ImageRef) : Updates :=
  { id := none, content := some content, mood := some selectedMood, image := some image,
    timestamp := none }

/-- The function `updateEntry`. -/
def updateEntry (writeError : Option String) (s : AppState) (entryId : String)
    (updates : Updates) : AppState × Except String Unit :=
  let updatedEntries :=
    s.entries.map (fun entry => if entry.id = entryId then spread entry updates else entry)
  match saveEntries writeError { s with entries := updatedEntries } updatedEntries with
  | (s', Except.ok _) => (s', Except.ok ())
  | (s', Except.error err) =>
    ({ s' with error := some "Failed to update your journal entry" }, Except.error err)

/-- The function `deleteEntry`. -/
def deleteEntry (writeError : Option String) (s : AppState) (entryId : String) :
    AppState × Except String Unit :=
  let updatedEntries := s.entries.filter (fun entry => decide (entry.id ≠ entryId))
  match saveEntries writeError { s with entries := updatedEntries } updatedEntries with
  | (s', Except.ok _) => (s', Except.ok ())
  | (s', Except.error err) =>
    ({ s' with error := some "Failed to delete your journal entry" }, Except.error err)

/-- The function `getEntryById`: `entries.find`, `none` standing for `undefined`. -/
def getEntryById (s : AppState) (entryId : String) : Option Entry :=
  s.entries.find? (fun entry => decide (entry.id = entryId))

/-- The order the comparator `(a, b) => new Date(b.timestamp) - new Date(a.timestamp)`
accepts: `a` may stand before `b` when the difference is not positive. -/
def newestFirst (a b : Entry) : Prop := b.timestamp ≤ a.timestamp

instance : DecidableRel newestFirst :=
  fun a b => inferInstanceAs (Decidable (b.timestamp ≤ a.timestamp))

instance : IsTotal Entry newestFirst :=
  ⟨fun a b => by unfold newestFirst; omega⟩

instance : IsTrans Entry newestFirst :=
  ⟨fun a b c hab hbc => by unfold newestFirst at *; omega⟩

/-- The effect of `entries.sort(comparator)` on the array: `Array.prototype.sort` is stable,
so the result is the arrangement by non-increasing timestamp in which entries of equal
timestamp keep their order; insertion from the right computes that arrangement. -/
def sortNewestFirst (entries : List Entry) : List Entry :=
  entries.insertionSort newestFirst

/-- The object `grouped`: its keys in the order of `Object.entries` (the order in which the
keys were created, none of them being an array index), each with its array. -/
abbrev Grouped := List (Int × List Entry)

/-- The body of the `forEach` callback: `if (!grouped[date]) grouped[date] = [];
grouped[date].push(entry)`. -/
def pushEntry (grouped : Grouped) (date : Int) (entry : Entry) : Grouped :=
  match grouped with
  | [] => [(date, [entry])]
  | (key, list) :: rest =>
    if key = date then (key, list ++ [entry]) :: rest
    else (key, list) :: pushEntry rest date entry

/-- The function `getEntriesByDate`. `Array.prototype.sort` sorts the array `entries` of the
provider in place and returns it, so the call yields the grouping and leaves the state with
the sorted array. -/
def getEntriesByDate (off : Int) (s : AppState) : Grouped × AppState :=
  let sorted := sortNewestFirst s.entries
  (sorted.foldl (fun grouped entry => pushEntry grouped (localDate off entry.timestamp) entry) [],
    { s with entries := sorted })

/-! ## Sequences of `addEntry` calls -/

/-- One call of `addEntry`: its three arguments and what the environment supplies during the
call, namely the instant of `new Date()`, the text of `uuid.v4()` and the outcome of the
store write. -/
structure AddCall where
  now : Int
  uuid : String
  writeError : Option String
  content : String
  mood : String
  imageUri : ImageRef
deriving DecidableEq, Repr

/-- The provider state after a sequence of `addEntry` calls, each call running on the state
the previous one left. -/
def addEntries (calls : List AddCall) (s : AppState) : AppState :=
  calls.foldl
    (fun st c => (addEntry c.now c.uuid c.writeError st c.content c.mood c.imageUri).1) s

/-! ## Histograms (`getMoodData`, `getEntryCountByWeekday`) -/

/-- One record of the object `moodCounts`. -/
structure MoodCount where
  count : Nat
  label : String
  color : String
  emoji : String
deriving DecidableEq, Repr

/-- The own properties of the object `moodCounts`, in the order of `Object.values` (the order
in which the keys were created). -/
abbrev MoodCounts := List (String × MoodCount)

/-- The assignment `moodCounts[key] = record`: an existing own property keeps its place and
takes the new value, a new key is added last. -/
def assign (moodCounts : MoodCounts) (key : String) (record : MoodCount) : MoodCounts :=
  match moodCounts with
  | [] => [(key, record)]
  | (k, r) :: rest =>
    if k = key then (k, record) :: rest else (k, r) :: assign rest key record

/-- The property names that a plain object inherits from `Object.prototype`. -/
def objectPrototypeKeys : List String :=
  [ "constructor", "__defineGetter__", "__defineSetter__", "hasOwnProperty",
    "__lookupGetter__", "__lookupSetter__", "isPrototypeOf", "propertyIsEnumerable",
    "toString", "valueOf", "__proto__", "toLocaleString" ]

/-- The value of the expression `moodCounts[key]`: an own record, a function or object
found on the prototype chain, or `undefined`. -/
inductive Property where
  | own (record : MoodCount)
  | inherited
  | undefined
deriving DecidableEq, Repr

/-- The lookup `moodCounts[key]`. -/
def getProperty (moodCounts : MoodCounts) (key : String) : Property :=
  match moodCounts.find? (fun kv => decide (kv.1 = key)) with
  | some kv => Property.own kv.2
  | none => if key ∈ objectPrototypeKeys then Property.inherited else Property.undefined

/-- The body of the second `forEach` of `getMoodData`:
`if (moodCounts[entry.mood]) moodCounts[entry.mood].count++`. An own record is truthy and
its count is incremented. An inherited function or object is truthy too: `count++` then
writes a `count` property on that inherited value, which is no record of `moodCounts`, and
does not throw. `undefined` is falsy and nothing happens. -/
def countEntry (moodCounts : MoodCounts) (entry : Entry) : MoodCounts :=
  match getProperty moodCounts entry.mood with
  | Property.own record =>
    assign moodCounts entry.mood
      { count := record.count + 1, label := record.label, color := record.color,
        emoji := record.emoji }
  | Property.inherited => moodCounts
  | Property.undefined => moodCounts

/-- The record `record` with `n` added to its count. -/
def addCount (record : MoodCount) (n : Nat) : MoodCount :=
  { count := record.count + n, label := record.label, color := record.color,
    emoji := record.emoji }

/-- The object `moodCounts` after the first `forEach` of `getMoodData`. -/
def initialMoodCounts : MoodCounts :=
  moodOptions.foldl
    (fun moodCounts mood =>
      assign moodCounts mood.value
        { count := 0, label := mood.label, color := mood.color, emoji := mood.emoji })
    []

/-- The function `getMoodData`. -/
def getMoodData (s : AppState) : List MoodCount :=
  (s.entries.foldl countEntry initialMoodCounts).map Prod.snd

/-- The value of `new Date(entry.timestamp).getDay()`: the weekday of the local calendar
day, 0 for Sunday; 1 January 1970 was a Thursday. -/
def getDay (off t : Int) : Nat := ((localDate off t + 4) % 7).toNat

/-- The array `weekdays`. -/
def weekdays : List String :=
  ["Sunday", "Monday", "Tuesday", "Wednesday", "Thursday", "Friday", "Saturday"]

/-- The statement `counts[dayOfWeek]++` on the seven-element array `counts`. -/
def incrementAt (counts : List Nat) (dayOfWeek : Nat) : List Nat :=
  match counts, dayOfWeek with
  | [], _ => []
  | c :: rest, 0 => (c + 1) :: rest
  | c :: rest, i + 1 => c :: incrementAt rest i

/-- One record returned by `getEntryCountByWeekday`. -/
structure WeekdayCount where
  name : String
  count : Nat
deriving DecidableEq, Repr

/-- The array `counts` of `getEntryCountByWeekday` after the `forEach`. -/
def weekdayCounts (off : Int) (entries : List Entry) : List Nat :=
  entries.foldl (fun counts entry => incrementAt counts (getDay off entry.timestamp))
    (List.replicate 7 0)

/-- The function `getEntryCountByWeekday`. -/
def getEntryCountByWeekday (off : Int) (s : AppState) : List WeekdayCount :=
  weekdays.enum.map
    (fun p => { name := p.2, count := (weekdayCounts off s.entries).getD p.1 0 })

/-! ## Months (`getFullYear`, `getMonth`, `getEntriesByMonth`, `stats`) -/

/-- The Gregorian calendar date of a day number: year, month (1 to 12) and day of the month of
the day that lies `day` days after 1 January 1970. This is the calendar of the built-in
`Date`, computed era by era (an era is 400 years, 146097 days, starting on 1 March). -/
def civilFromDays (day : Int) : Int × Int × Int :=
  let z := day + 719468
  let era := z / 146097
  let doe := z - era * 146097
  let yoe := (doe - doe / 1460 + doe / 36524 - doe / 146096) / 365
  let doy := doe - (365 * yoe + yoe / 4 - yoe / 100)
  let mp := (5 * doy + 2) / 153
  let d := doy - (153 * mp + 2) / 5 + 1
  let m := if mp < 10 then mp + 3 else mp - 9
  let y := yoe + era * 400
  (if m ≤ 2 then y + 1 else y, m, d)

/-- The value of `new Date(t).getFullYear()`: the year of the local calendar day. -/
def getFullYear (off t : Int) : Int := (civilFromDays (localDate off t)).1

/-- The value of `new Date(t).getMonth()`: the month of the local calendar day, 0 for
January. -/
def getMonth (off t : Int) : Int := (civilFromDays (localDate off t)).2.1 - 1

/-- The key `monthYear` of `getEntriesByMonth`, the text
`getFullYear() + '-' + String(getMonth() + 1).padStart(2, '0')`, identified with the pair of
the year and the month number (1 to 12) it is written from: one text per pair. -/
def monthYear (off t : Int) : Int × Int := (getFullYear off t, getMonth off t + 1)

/-- The body of the `forEach` callback of `getEntriesByMonth` on an object whose keys are of
type `κ`: `if (!grouped[key]) grouped[key] = []; grouped[key].push(entry)`. Keys stand in
the order in which they were created. -/
def pushInto {κ : Type} [DecidableEq κ] (grouped : List (κ × List Entry)) (key : κ)
    (entry : Entry) : List (κ × List Entry) :=
  match grouped with
  | [] => [(key, [entry])]
  | (k, list) :: rest =>
    if k = key then (k, list ++ [entry]) :: rest
    else (k, list) :: pushInto rest key entry

/-- The function `getEntriesByMonth`: `forEach` visits the collection in its order and does
not change it. -/
def getEntriesByMonth (off : Int) (s : AppState) : List ((Int × Int) × List Entry) :=
  s.entries.foldl (fun grouped entry => pushInto grouped (monthYear off entry.timestamp) entry) []

/-- The keys of a sequence in the order in which each is first seen. -/
def firstSeen {κ : Type} [DecidableEq κ] (keys : List κ) : List κ :=
  keys.foldl (fun seen key => if key ∈ seen then seen else seen ++ [key]) []

/-- The object `stats` of the dashboard. -/
structure Stats where
  total : Nat
  thisMonth : Nat
  streak : Nat
deriving DecidableEq, Repr

/-- The memoised computation `stats` of `DashboardScreen`; `now` is the instant of
`currentDate` and of the `new Date()` the streak walk starts from. -/
def stats (off now : Int) (entries : List Entry) : Stats :=
  if entries.length > 0 then
    { total := entries.length,
      thisMonth := (entries.filter (fun entry =>
        decide (getMonth off entry.timestamp = getMonth off now) &&
          decide (getFullYear off entry.timestamp = getFullYear off now))).length,
      streak := streakLoop (datesWithEntries entries) (setHoursZero off now) 0 }
  else
    { total := 0, thisMonth := 0, streak := 0 }

/-! ## The Gregorian calendar, rule by rule

The calendar as it is commonly worded: a year is a leap year when it is divisible by 4 and
not by 100, or divisible by 400; February has 29 days in a leap year and 28 otherwise, April,
June, September and November have 30 days, the other months 31; the day after the last day
of a month is the first of the next month, the day after 31 December is 1 January of the
next year. `civilFromDays` is compared with these rules in the lemmas on months. -/

/-- The leap-year rule of the Gregorian calendar. -/
def isLeapYear (year : Int) : Prop := year % 4 = 0 ∧ (year % 100 ≠ 0 ∨ year % 400 = 0)

instance (year : Int) : Decidable (isLeapYear year) := inferInstanceAs (Decidable (_ ∧ _))

/-- The number of days of month `month` (1 to 12) of year `year`. -/
def daysInMonth (year month : Int) : Int :=
  if month = 2 then (if isLeapYear year then 29 else 28)
  else if month = 4 ∨ month = 6 ∨ month = 9 ∨ month = 11 then 30 else 31

/-- The calendar date (year, month, day) that follows `date`. -/
def nextDay (date : Int × Int × Int) : Int × Int × Int :=
  if date.2.2 < daysInMonth date.1 date.2.1 then (date.1, date.2.1, date.2.2 + 1)
  else if date.2.1 < 12 then (date.1, date.2.1 + 1, 1)
  else (date.1 + 1, 1, 1)

/-- The year of the era in which day `doe` of the era lies, as `civilFromDays` computes it
(`yoe`). -/
def yearOfEra (doe : Int) : Int := (doe - doe / 1460 + doe / 36524 - doe / 146096) / 365

/-- The year, counted from 1 March, in which `civilFromDays` places a day number (`y` before
the shift of January and February). -/
def marchYear (day : Int) : Int :=
  let z := day + 719468
  let era := z / 146097
  let doe := z - era * 146097
  yearOfEra doe + era * 400

/-- The day of the year counted from 1 March at which `civilFromDays` places a day number
(`doy`). -/
def dayOfMarchYear (day : Int) : Int :=
  let z := day + 719468
  let era := z / 146097
  let doe := z - era * 146097
  let yoe := yearOfEra doe
  doe - (365 * yoe + yoe / 4 - yoe / 100)

/-- The last steps of `civilFromDays`: the calendar date of day `doy` of the year that starts
on 1 March of `year`. -/
def civilOfYearDay (year doy : Int) : Int × Int × Int :=
  let mp := (5 * doy + 2) / 153
  let d := doy - (153 * mp + 2) / 5 + 1
  let m := if mp < 10 then mp + 3 else mp - 9
  (if m ≤ 2 then year + 1 else year, m, d)

/-- The number of days from the start of an era to 1 March of its year `a`. -/
def yearStart (a : Int) : Int := 365 * a + a / 4 - a / 100 + a / 400

/-- The number of days of the year that starts on 1 March of `year`: its February belongs to
the calendar year `year + 1`. -/
def yearLength (year : Int) : Int := if isLeapYear (year + 1) then 366 else 365

/-! ## Loading (`loadEntries`, `JSON.stringify`, `JSON.parse`, `clearError`) -/

/-- The value a JSON text denotes, which is the value `JSON.parse` returns for it. A string
that is the ISO-8601 text of an instant is given by that instant (`date`), as everywhere in
this model; any other string by its characters (`str`). Only integer numbers occur. -/
inductive Json where
  | null
  | bool (b : Bool)
  | number (n : Int)
  | str (chars : String)
  | date (instant : Int)
  | arr (items : List Json)
  | obj (props : List (String × Json))

/-- The JSON value of one entry as `JSON.stringify` writes it: the properties in the order
of the object literal of `addEntry`, a property whose value is `undefined` being left out. -/
def entryToJson (entry : Entry) : Json :=
  Json.obj
    ([("id", Json.str entry.id), ("content", Json.str entry.content),
        ("mood", Json.str entry.mood)] ++
      (match entry.image with
        | ImageRef.undefined => []
        | ImageRef.null => [("image", Json.null)]
        | ImageRef.uri path => [("image", Json.str path)]) ++
      [("timestamp", Json.date entry.timestamp)])

/-- The JSON value of the text `JSON.stringify(updatedEntries)` that `saveEntries` writes. -/
def toJson (entries : List Entry) : Json :=
  Json.arr (entries.map entryToJson)

/-- The property read `object[name]` on a parsed object: the value of the own property of
that name, `none` standing for `undefined`. -/
def getProp (props : List (String × Json)) (name : String) : Option Json :=
  match props with
  | [] => none
  | (k, v) :: rest => if k = name then some v else getProp rest name

/-- A parsed value read as an entry record: an object whose `id`, `content` and `mood` are
strings, whose `image` is absent (it reads `undefined`), `null` or a string, and whose
`timestamp` is the ISO text of an instant. -/
def asEntry (value : Json) : Option Entry :=
  match value with
  | Json.obj props =>
    match getProp props "id", getProp props "content", getProp props "mood",
      getProp props "timestamp" with
    | some (Json.str id), some (Json.str content), some (Json.str mood),
        some (Json.date timestamp) =>
      match getProp props "image" with
      | none => some (Entry.mk id content mood ImageRef.undefined timestamp)
      | some Json.null => some (Entry.mk id content mood ImageRef.null timestamp)
      | some (Json.str path) => some (Entry.mk id content mood (ImageRef.uri path) timestamp)
      | _ => none
    | _, _, _, _ => none
  | _ => none

/-- A parsed value read as a sequence of entry records, `none` when it is no array or some
element is no entry record. -/
def asEntries (value : Json) : Option (List Entry) :=
  match value with
  | Json.arr items => items.mapM asEntry
  | _ => none

/-- What `AsyncStorage.getItem('journalEntries')` yields: it rejects, or it resolves to
`null` (no document), to the empty text (falsy as well), to a text that `JSON.parse`
rejects, or to a text that `JSON.parse` accepts, given by the value parsed from it. -/
inductive ReadOutcome where
  | rejected (err : String)
  | noItem
  | emptyText
  | malformed
  | document (value : Json)

/-- The content of the state cell `entries` after `loadEntries`: the array that was there,
or the value that `setEntries(JSON.parse(storedEntries))` put there. -/
inductive EntriesCell where
  | kept (entries : List Entry)
  | parsed (value : Json)

/-- The cell `entries` read as a sequence of entry records. -/
def cellEntries (cell : EntriesCell) : Option (List Entry) :=
  match cell with
  | EntriesCell.kept entries => some entries
  | EntriesCell.parsed value => asEntries value

/-- The state of `AppProvider` after `loadEntries`. -/
structure LoadState where
  entries : EntriesCell
  loading : Bool
  error : Option String

/-- The state of `AppProvider` when it mounts: `useState([])`, `useState(true)`,
`useState(null)`; `stored` is what the store holds. -/
def initialState (stored : Option (List Entry)) : AppState :=
  { entries := [], loading := true, error := none, stored := stored }

/-- What `getItem` yields for the document that `saveEntries` left in the store, the medium
being readable. -/
def readStore (s : AppState) : ReadOutcome :=
  match s.stored with
  | none => ReadOutcome.noItem
  | some entries => ReadOutcome.document (toJson entries)

/-- The function `loadEntries`. The `try` sets `entries` only for a truthy item that
`JSON.parse` accepts; the `catch` sets the error for a rejected read and for a rejected
parse and does not rethrow; the `finally` sets `loading` to `false`. The second component
is what the caller sees: the function always returns. -/
def loadEntries (read : ReadOutcome) (s : AppState) : LoadState × Except String Unit :=
  match read with
  | ReadOutcome.rejected _ =>
    ({ entries := EntriesCell.kept s.entries, loading := false,
       error := some "Failed to load your journal entries" }, Except.ok ())
  | ReadOutcome.noItem =>
    ({ entries := EntriesCell.kept s.entries, loading := false, error := s.error },
      Except.ok ())
  | ReadOutcome.emptyText =>
    ({ entries := EntriesCell.kept s.entries, loading := false, error := s.error },
      Except.ok ())
  | ReadOutcome.malformed =>
    ({ entries := EntriesCell.kept s.entries, loading := false,
       error := some "Failed to load your journal entries" }, Except.ok ())
  | ReadOutcome.document value =>
    ({ entries := EntriesCell.parsed value, loading := false, error := s.error },
      Except.ok ())

/-- The function `clearError`: `setError(null)`. -/
def clearError (s : AppState) : AppState :=
  { s with error := none }

/-! ## The add-entry form (`AddEntryScreen.js`, `handleSubmit`) -/

/-- The characters that `String.prototype.trim` removes: the white space and line terminator
code points of ECMAScript. -/
def isJsWhitespace (c : Char) : Bool :=
  decide (c.toNat ∈ [9, 10, 11, 12, 13, 32, 160, 5760, 8192, 8193, 8194, 8195, 8196, 8197,
    8198, 8199, 8200, 8201, 8202, 8232, 8233, 8239, 8287, 12288, 65279])

/-- The value of `content.trim()`. -/
def jsTrim (content : String) : String :=
  String.mk
    (((content.data.dropWhile isJsWhitespace).reverse.dropWhile isJsWhitespace).reverse)

/-- How `handleSubmit` ends: with the alert shown before any call of `addEntry`, or with the
outcome of its call of `addEntry`. -/
inductive SubmitOutcome where
  | alerted
  | added (result : Except String String)

/-- The function `handleSubmit` of the add-entry form, on the form fields `content`,
`selectedMood` and `image`. -/
def handleSubmit (now : Int) (uuid : String) (writeError : Option String) (s : AppState)
    (content selectedMood : String) (image : ImageRef) : AppState × SubmitOutcome :=
  if jsTrim content = "" then
    (s, SubmitOutcome.alerted)
  else
    ((addEntry now uuid writeError s content selectedMood image).1,
      SubmitOutcome.added (addEntry now uuid writeError s content selectedMood image).2)

/-! ## The streak as the specification words it -/

/-- Some entry belongs to the local calendar day `day`. -/
def hasEntryOnLocalDay (off : Int) (entries : List Entry) (day : Int) : Prop :=
  ∃ entry ∈ entries, localDate off entry.timestamp = day

instance (off : Int) (entries : List Entry) (day : Int) :
    Decidable (hasEntryOnLocalDay off entries day) :=
  inferInstanceAs (Decidable (∃ entry ∈ entries, localDate off entry.timestamp = day))

/-- The number `k` is the local-day streak at `now`: each of the `k` local calendar days
today, yesterday, ... has an entry, and the day before them has none. -/
def IsLocalDayStreak (off now : Int) (entries : List Entry) (k : Nat) : Prop :=
  (∀ i : Nat, i < k → hasEntryOnLocalDay off entries (localDate off now - i)) ∧
    ¬ hasEntryOnLocalDay off entries (localDate off now - k)

instance (off now : Int) (entries : List Entry) (k : Nat) :
    Decidable (IsLocalDayStreak off now entries k) :=
  inferInstanceAs (Decidable (_ ∧ _))

/-! ## Concrete scenarios

The instants are 10:00 UTC on 8, 9 and 10 March 2024, which is 12:00 local time of the same
days in a zone two hours ahead of UTC (`off = 7200000`). -/

/-- An entry written on 8 March 2024 at 10:00 UTC. -/
def entryMar08 : Entry :=
  { id := "id-08", content := "first", mood := "good", image := ImageRef.null,
    timestamp := 1709892000000 }

/-- An entry written on 9 March 2024 at 10:00 UTC. -/
def entryMar09 : Entry :=
  { id := "id-09", content := "second", mood := "okay", image := ImageRef.null,
    timestamp := 1709978400000 }

/-- An entry written on 10 March 2024 at 10:00 UTC. -/
def entryMar10 : Entry :=
  { id := "id-10", content := "third", mood := "amazing", image := ImageRef.uri "file:///p.jpg",
    timestamp := 1710064800000 }

/-- An entry written on 9 March 2024 at 18:00 UTC. -/
def entryMar09Evening : Entry :=
  { id := "id-09b", content := "evening", mood := "poor", image := ImageRef.undefined,
    timestamp := 1710007200000 }

/-- An entry written on 10 March 2024 at 10:00 UTC whose mood is the inherited property name
`constructor`. -/
def entryForeign : Entry :=
  { id := "id-x", content := "odd", mood := "constructor", image := ImageRef.null,
    timestamp := 1710064800000 }

/-- The zone Europe/London in 2024: UTC until 31 March 01:00 UTC, one hour ahead of UTC
until 27 October 01:00 UTC, UTC again from then on. -/
def europeLondon2024 : Zone :=
  { base := 0, changes := [(1711846800000, 3600000), (1729990800000, 0)] }

/-- An entry written on 31 March 2024 at 12:00 UTC. -/
def entryMar31 : Entry :=
  { id := "id-31", content := "spring", mood := "good", image := ImageRef.null,
    timestamp := 1711886400000 }

/-- An entry written on 27 October 2024 at 12:00 UTC. -/
def entryOct27 : Entry :=
  { id := "id-27", content := "autumn", mood := "good", image := ImageRef.null,
    timestamp := 1730030400000 }

/-- An entry written on 28 October 2024 at 09:00 UTC. -/
def entryOct28 : Entry :=
  { id := "id-28", content := "monday", mood := "okay", image := ImageRef.null,
    timestamp := 1730106000000 }

/-- An entry written on 9 March 2024 at 23:00 UTC, which is 10 March 01:00 in a zone two
hours ahead of UTC. -/
def entryMar09Late : Entry :=
  { id := "id-09c", content := "night", mood := "okay", image := ImageRef.null,
    timestamp := 1710025200000 }

/-- An entry written on 31 December 2023 at 23:30 UTC, which is 1 January 2024 at 01:30 in a
zone two hours ahead of UTC. -/
def entryDec31Late : Entry :=
  { id := "id-ny", content := "new year", mood := "amazing", image := ImageRef.null,
    timestamp := 1704065400000 }

/-- An entry written on 29 February 2024 at 12:00 UTC. -/
def entryFeb29 : Entry :=
  { id := "id-29", content := "leap day", mood := "good", image := ImageRef.null,
    timestamp := 1709208000000 }

/-- A provider state holding `entries`, loaded, without error, the store holding the same
sequence. -/
def readyState (entries : List Entry) : AppState :=
  { entries := entries, loading := false, error := none, stored := some entries }

/-! ## Invariants of the grouping loop -/

/-- The keys of `grouped` strictly descend, no array is empty, every array holds entries of
the local day of its key only, and every array is ordered newest first. -/
def GroupedNewestFirst (off : Int) (grouped : Grouped) : Prop :=
  (grouped.map Prod.fst).Pairwise (fun a b => b < a) ∧
    ∀ p ∈ grouped, p.2 ≠ [] ∧ (∀ e ∈ p.2, localDate off e.timestamp = p.1) ∧
      p.2.Pairwise newestFirst

/-- No entry already placed in `grouped` is older than the instant `bound`. -/
def GroupedAtLeast (bound : Int) (grouped : Grouped) : Prop :=
  ∀ p ∈ grouped, ∀ e ∈ p.2, bound ≤ e.timestamp

/-- Invariant of the loop of `getEntriesByMonth` after the entries `done` were visited: the
keys are those of `done` in first-seen order, without repetition; every array holds, in the
order of `done`, exactly the entries of `done` that have the key of the array, and is not
empty; every visited entry has its key among the keys. -/
def GroupedByKey {κ : Type} [DecidableEq κ] (key : Entry → κ) (done : List Entry)
    (grouped : List (κ × List Entry)) : Prop :=
  grouped.map Prod.fst = firstSeen (done.map key) ∧
    (grouped.map Prod.fst).Nodup ∧
    (∀ p ∈ grouped, p.2 = done.filter (fun e => decide (key e = p.1)) ∧ p.2 ≠ []) ∧
    (∀ e ∈ done, key e ∈ grouped.map Prod.fst)

/-- The field `new` is the merge of the field `old` with what `updates` names for it: the
named value when there is one, the old value otherwise. -/
def MergedField {α : Type} (named : Option α) (old new : α) : Prop :=
  (∀ v, named = some v → new = v) ∧ (named = none → new = old)

/-! ## Lemmas -/

theorem localDate_mono (off : Int) {a b : Int} (h : a ≤ b) :
    localDate off a ≤ localDate off b := by
  unfold localDate msPerDay
  omega

theorem sortNewestFirst_sorted (entries : List Entry) :
    (sortNewestFirst entries).Pairwise newestFirst :=
  List.sorted_insertionSort newestFirst entries

theorem sortNewestFirst_perm (entries : List Entry) :
    (sortNewestFirst entries).Perm entries :=
  List.perm_insertionSort newestFirst entries

theorem keys_pushEntry (grouped : Grouped) (date : Int) (entry : Entry) :
    ∀ k ∈ (pushEntry grouped date entry).map Prod.fst,
      k ∈ grouped.map Prod.fst ∨ k = date := by
  induction grouped with
  | nil => intro k hk; simpa [pushEntry] using hk
  | cons p rest ih =>
    obtain ⟨key, list⟩ := p
    intro k hk
    unfold pushEntry at hk
    split at hk
    · left; simpa using hk
    · simp only [List.map_cons, List.mem_cons] at hk ⊢
      rcases hk with hk | hk
      · exact Or.inl (Or.inl hk)
      · rcases ih k hk with h | h
        · exact Or.inl (Or.inr h)
        · exact Or.inr h

theorem pushEntry_invariant (off : Int) (r : Entry) (grouped : Grouped)
    (hinv : GroupedNewestFirst off grouped) (hge : GroupedAtLeast r.timestamp grouped) :
    GroupedNewestFirst off (pushEntry grouped (localDate off r.timestamp) r) ∧
      GroupedAtLeast r.timestamp (pushEntry grouped (localDate off r.timestamp) r) := by
  induction grouped with
  | nil =>
    refine ⟨⟨by simp [pushEntry], ?_⟩, ?_⟩
    · intro p hp
      simp only [pushEntry, List.mem_singleton] at hp
      subst hp
      simp
    · intro p hp e he
      simp only [pushEntry, List.mem_singleton] at hp
      subst hp
      simp only [List.mem_singleton] at he
      subst he
      exact le_refl _
  | cons p rest ih =>
    obtain ⟨key, list⟩ := p
    obtain ⟨hkeys, hgroups⟩ := hinv
    simp only [List.map_cons, List.pairwise_cons] at hkeys
    obtain ⟨hhead, htail⟩ := hkeys
    have hp0 := hgroups (key, list) (List.mem_cons_self _ _)
    obtain ⟨hne, hday, hsorted⟩ := hp0
    have hrest : GroupedNewestFirst off rest :=
      ⟨htail, fun p hp => hgroups p (List.mem_cons_of_mem _ hp)⟩
    have hgerest : GroupedAtLeast r.timestamp rest :=
      fun p hp => hge p (List.mem_cons_of_mem _ hp)
    have hgelist : ∀ e ∈ list, r.timestamp ≤ e.timestamp :=
      fun e he => hge (key, list) (List.mem_cons_self _ _) e he
    unfold pushEntry
    by_cases hk : key = localDate off r.timestamp
    · simp only [hk, if_true]
      refine ⟨⟨?_, ?_⟩, ?_⟩
      · simp only [List.map_cons, List.pairwise_cons]
        exact ⟨fun a ha => hk ▸ hhead a ha, htail⟩
      · intro p hp
        rcases List.mem_cons.1 hp with hp | hp
        · subst hp
          refine ⟨by simp, ?_, ?_⟩
          · intro e he
            rcases List.mem_append.1 he with he | he
            · exact (hday e he).trans hk
            · simp only [List.mem_singleton] at he
              subst he
              rfl
          · rw [List.pairwise_append]
            refine ⟨hsorted, List.pairwise_singleton _ _, ?_⟩
            intro a ha b hb
            simp only [List.mem_singleton] at hb
            subst hb
            exact hgelist a ha
        · exact hgroups p (List.mem_cons_of_mem _ hp)
      · intro p hp e he
        rcases List.mem_cons.1 hp with hp | hp
        · subst hp
          rcases List.mem_append.1 he with he | he
          · exact hgelist e he
          · simp only [List.mem_singleton] at he
            subst he
            exact le_refl _
        · exact hgerest p hp e he
    · simp only [hk, if_false]
      obtain ⟨ih1, ih2⟩ := ih hrest hgerest
      refine ⟨⟨?_, ?_⟩, ?_⟩
      · simp only [List.map_cons, List.pairwise_cons]
        refine ⟨?_, ih1.1⟩
        intro a ha
        rcases keys_pushEntry rest _ r a ha with h | h
        · exact hhead a h
        · obtain ⟨e, he⟩ := List.exists_mem_of_ne_nil list hne
          have h1 : localDate off r.timestamp ≤ localDate off e.timestamp :=
            localDate_mono off (hgelist e he)
          rw [hday e he] at h1
          rw [h]
          exact lt_of_le_of_ne h1 (fun h2 => hk h2.symm)
      · intro p hp
        rcases List.mem_cons.1 hp with hp | hp
        · subst hp
          exact ⟨hne, hday, hsorted⟩
        · exact ih1.2 p hp
      · intro p hp e he
        rcases List.mem_cons.1 hp with hp | hp
        · subst hp
          exact hgelist e he
        · exact ih2 p hp e he

theorem foldl_pushEntry_invariant (off : Int) :
    ∀ (l : List Entry) (grouped : Grouped), l.Pairwise newestFirst →
      GroupedNewestFirst off grouped → (∀ r ∈ l, GroupedAtLeast r.timestamp grouped) →
      GroupedNewestFirst off
        (l.foldl (fun g entry => pushEntry g (localDate off entry.timestamp) entry) grouped) := by
  intro l
  induction l with
  | nil => intro grouped _ hinv _; exact hinv
  | cons r t ih =>
    intro grouped hsorted hinv hge
    rw [List.pairwise_cons] at hsorted
    obtain ⟨h1, h2⟩ := pushEntry_invariant off r grouped hinv (hge r (List.mem_cons_self _ _))
    simp only [List.foldl_cons]
    apply ih _ hsorted.2 h1
    intro r' hr' p hp e he
    have := h2 p hp e he
    have h3 : r'.timestamp ≤ r.timestamp := hsorted.1 r' hr'
    omega

theorem getEntriesByDate_invariant (off : Int) (s : AppState) :
    GroupedNewestFirst off (getEntriesByDate off s).1 := by
  unfold getEntriesByDate
  apply foldl_pushEntry_invariant off _ _ (sortNewestFirst_sorted s.entries)
  · exact ⟨by simp, by simp⟩
  · intro r _ p hp
    simp at hp

theorem sortNewestFirst_three (l : List Entry) (e1 e2 e3 : Entry)
    (hperm : l.Perm [e1, e2, e3]) (h12 : e1.timestamp < e2.timestamp)
    (h23 : e2.timestamp < e3.timestamp) : sortNewestFirst l = [e3, e2, e1] := by
  refine @List.Perm.eq_of_sorted Entry newestFirst _ _ ?_ ?_ ?_ ?_
  · intro a b ha hb hab hba
    have ha' : a ∈ [e1, e2, e3] := hperm.subset ((sortNewestFirst_perm l).subset ha)
    simp only [List.mem_cons, List.mem_singleton, List.not_mem_nil, or_false] at ha' hb
    unfold newestFirst at hab hba
    rcases ha' with rfl | rfl | rfl <;> rcases hb with rfl | rfl | rfl <;>
      first | rfl | omega
  · exact sortNewestFirst_sorted l
  · simp only [List.pairwise_cons, List.mem_cons, List.mem_singleton, List.not_mem_nil,
      or_false, forall_eq_or_imp, forall_eq, List.Pairwise.nil, and_true, newestFirst,
      IsEmpty.forall_iff, implies_true]
    omega
  · refine (sortNewestFirst_perm l).trans (hperm.trans ?_)
    exact List.reverse_perm [e3, e2, e1]

theorem updateEntry_entries (writeError : Option String) (s : AppState) (entryId : String)
    (updates : Updates) :
    (updateEntry writeError s entryId updates).1.entries =
      s.entries.map (fun entry => if entry.id = entryId then spread entry updates else entry) := by
  cases writeError <;> rfl

theorem addEntry_entries (now : Int) (uuid : String) (writeError : Option String)
    (s : AppState) (content mood : String) (imageUri : ImageRef) :
    (addEntry now uuid writeError s content mood imageUri).1.entries =
      s.entries ++ [Entry.mk uuid content mood imageUri now] := by
  cases writeError <;> rfl

theorem map_eq_self_of_no_match (entries : List Entry) (entryId : String) (updates : Updates)
    (h : ∀ e ∈ entries, e.id ≠ entryId) :
    entries.map (fun entry => if entry.id = entryId then spread entry updates else entry)
      = entries := by
  induction entries with
  | nil => rfl
  | cons a t ih =>
    have ha : a.id ≠ entryId := h a (List.mem_cons_self _ _)
    simp only [List.map_cons, ha, if_false]
    rw [ih (fun e he => h e (List.mem_cons_of_mem _ he))]

theorem find?_map_update (entries : List Entry) (entryId : String) (updates : Updates)
    (hid : updates.id = none) :
    (entries.map (fun entry => if entry.id = entryId then spread entry updates else entry)).find?
        (fun entry => decide (entry.id = entryId))
      = (entries.find? (fun entry => decide (entry.id = entryId))).map
          (fun entry => spread entry updates) := by
  induction entries with
  | nil => rfl
  | cons a t ih =>
    by_cases ha : a.id = entryId
    · have h1 : (spread a updates).id = entryId := by simp [spread, hid, ha]
      simp [List.find?_cons, ha, h1]
    · simp only [List.map_cons, ha, if_false, List.find?_cons, decide_False]
      exact ih

theorem utcDate_setDatePrev (t : Int) : utcDate (setDatePrev t) = utcDate t - 1 := by
  unfold utcDate setDatePrev msPerDay
  omega

theorem streakLoop_shift (dates : List Int) (checkDate : Int) (currentStreak : Nat) :
    ∀ m : Nat, streakLoop dates checkDate (currentStreak + m)
      = streakLoop dates checkDate currentStreak + m := by
  induction checkDate, currentStreak using streakLoop.induct dates with
  | case1 c n h ih =>
    intro m
    rw [streakLoop, dif_pos h]
    conv_rhs => rw [streakLoop, dif_pos h]
    rw [← ih m]
    congr 1
    omega
  | case2 c n h =>
    intro m
    rw [streakLoop, dif_neg h]
    conv_rhs => rw [streakLoop, dif_neg h]

theorem streakLoop_counter (dates : List Int) (checkDate : Int) (currentStreak : Nat) :
    streakLoop dates checkDate currentStreak = currentStreak + streakLoop dates checkDate 0 := by
  have h := streakLoop_shift dates checkDate 0 currentStreak
  rw [Nat.zero_add] at h
  omega

theorem streakLoop_of_mem (dates : List Int) (checkDate : Int)
    (h : utcDate checkDate ∈ dates) :
    streakLoop dates checkDate 0 = streakLoop dates (setDatePrev checkDate) 0 + 1 := by
  rw [streakLoop, dif_pos h, streakLoop_counter]
  omega

theorem streakLoop_of_not_mem (dates : List Int) (checkDate : Int)
    (h : utcDate checkDate ∉ dates) : streakLoop dates checkDate 0 = 0 := by
  rw [streakLoop, dif_neg h]

/-- What the loop counts: the days `d0, d0 - 1, ...` below the date `d0` of the cursor are in
the set for as many steps as the result says, and the next one is not. -/
theorem streakLoop_spec (dates : List Int) (checkDate : Int) :
    (∀ i : Nat, i < streakLoop dates checkDate 0 → utcDate checkDate - i ∈ dates) ∧
      utcDate checkDate - (streakLoop dates checkDate 0 : Nat) ∉ dates := by
  have key : ∀ (c : Int) (n : Nat),
      (∀ i : Nat, i < streakLoop dates c 0 → utcDate c - i ∈ dates) ∧
        utcDate c - (streakLoop dates c 0 : Nat) ∉ dates := by
    intro c n
    induction c, n using streakLoop.induct dates with
    | case1 c n h ih =>
      rw [streakLoop_of_mem dates c h]
      rw [utcDate_setDatePrev] at ih
      obtain ⟨ih1, ih2⟩ := ih
      refine ⟨?_, ?_⟩
      · intro i hi
        cases i with
        | zero => simpa using h
        | succ j =>
          have := ih1 j (by omega)
          have e : utcDate c - ((j + 1 : Nat) : Int) = utcDate c - 1 - (j : Int) := by
            push_cast
            omega
          rw [e]
          exact this
      · have e : utcDate c - ((streakLoop dates (setDatePrev c) 0 + 1 : Nat) : Int)
            = utcDate c - 1 - (streakLoop dates (setDatePrev c) 0 : Nat) := by
          push_cast
          omega
        rw [e]
        exact ih2
    | case2 c n h =>
      rw [streakLoop_of_not_mem dates c h]
      exact ⟨fun i hi => absurd hi (Nat.not_lt_zero i), by simpa using h⟩
  exact key checkDate 0

/-! ## Streak: the dashboard against the local-day reading -/

/-- C1: at 12:00 local time on 10 March 2024 in a zone two hours ahead of UTC, with one
entry written at that very instant, the dashboard streak is 0 although today's local day
holds an entry and the local-day streak is 1. -/
theorem streak_differs_from_local_day_streak :
    streak 7200000 1710064800000 [entryMar10] = 0 ∧
      IsLocalDayStreak 7200000 1710064800000 [entryMar10] 1 := by
  refine ⟨?_, by decide⟩
  unfold streak
  rw [streakLoop]
  decide

/-- C2: with entries on today, yesterday and the day before yesterday (local days, zone two
hours ahead of UTC) and none on the local day before those, the dashboard streak is 2,
not 3. -/
theorem streak_three_local_days_gives_two :
    hasEntryOnLocalDay 7200000 [entryMar08, entryMar09, entryMar10]
        (localDate 7200000 1710064800000) ∧
      hasEntryOnLocalDay 7200000 [entryMar08, entryMar09, entryMar10]
        (localDate 7200000 1710064800000 - 1) ∧
      hasEntryOnLocalDay 7200000 [entryMar08, entryMar09, entryMar10]
        (localDate 7200000 1710064800000 - 2) ∧
      ¬ hasEntryOnLocalDay 7200000 [entryMar08, entryMar09, entryMar10]
        (localDate 7200000 1710064800000 - 3) ∧
      streak 7200000 1710064800000 [entryMar08, entryMar09, entryMar10] = 2 := by
  refine ⟨by decide, by decide, by decide, by decide, ?_⟩
  unfold streak
  rw [streakLoop, streakLoop, streakLoop]
  decide

/-- C3: with a single entry written yesterday and none on today's local day (zone two hours
ahead of UTC), the dashboard streak is 1, not 0. -/
theorem streak_without_entry_today_is_one :
    ¬ hasEntryOnLocalDay 7200000 [entryMar09] (localDate 7200000 1710064800000) ∧
      streak 7200000 1710064800000 [entryMar09] = 1 := by
  refine ⟨by decide, ?_⟩
  unfold streak
  rw [streakLoop, streakLoop]
  decide

/-! ## Grouping by day -/

/-- C4: `getEntriesByDate` lists its day keys in strictly descending order and every day's
entries in non-increasing timestamp order; and when the collection consists of two entries
of one local day at different instants and one entry of the next local day, the result has
exactly two keys, the next day first, and the same-day list has the later entry first. -/
theorem getEntriesByDate_newest_first (off : Int) (s : AppState) :
    ((getEntriesByDate off s).1.map Prod.fst).Pairwise (fun a b => b < a) ∧
      (∀ p ∈ (getEntriesByDate off s).1,
        p.2.Pairwise (fun a b => b.timestamp ≤ a.timestamp)) ∧
      (∀ e1 e2 e3 : Entry, s.entries.Perm [e1, e2, e3] →
        localDate off e1.timestamp = localDate off e2.timestamp →
        e1.timestamp < e2.timestamp →
        localDate off e3.timestamp = localDate off e1.timestamp + 1 →
        (getEntriesByDate off s).1 =
          [(localDate off e3.timestamp, [e3]), (localDate off e1.timestamp, [e2, e1])]) := by
  obtain ⟨hkeys, hgroups⟩ := getEntriesByDate_invariant off s
  refine ⟨hkeys, fun p hp => (hgroups p hp).2.2, ?_⟩
  intro e1 e2 e3 hperm hsame hlt hnext
  have h23 : e2.timestamp < e3.timestamp := by
    unfold localDate msPerDay at hsame hnext
    omega
  have hne : localDate off e3.timestamp ≠ localDate off e2.timestamp := by omega
  have hsorted := sortNewestFirst_three s.entries e1 e2 e3 hperm hlt h23
  unfold getEntriesByDate
  simp only [hsorted, List.foldl_cons, List.foldl_nil, pushEntry, hne, if_false, hsame,
    if_true, List.cons_append, List.nil_append]

/-- C4, a concrete day: entries of 9 March at 10:00 and 18:00 and of 10 March at 10:00 UTC,
grouped in a zone two hours ahead of UTC. -/
theorem getEntriesByDate_newest_first_witness :
    (getEntriesByDate 7200000 (readyState [entryMar09, entryMar10, entryMar09Evening])).1 =
      [(19792, [entryMar10]), (19791, [entryMar09Evening, entryMar09])] :=
  (getEntriesByDate_newest_first 7200000
      (readyState [entryMar09, entryMar10, entryMar09Evening])).2.2
    entryMar09 entryMar09Evening entryMar10
    (List.Perm.cons _ (List.Perm.swap _ _ _)) (by decide) (by decide) (by decide)

/-- C5: `getEntriesByDate` sorts the provider's array in place: on the collection
`[9 March, 10 March]` the in-memory collection after the call is `[10 March, 9 March]`, and
the next `addEntry` writes that order followed by the new entry to the store. -/
theorem getEntriesByDate_reorders_collection :
    (getEntriesByDate 0 (readyState [entryMar09, entryMar10])).2.entries
        = [entryMar10, entryMar09] ∧
      (getEntriesByDate 0 (readyState [entryMar09, entryMar10])).2.entries
        ≠ (readyState [entryMar09, entryMar10]).entries ∧
      (addEntry 1710068400000 "id-new" none
          (getEntriesByDate 0 (readyState [entryMar09, entryMar10])).2
          "fourth" "good" ImageRef.null).1.stored
        = some [entryMar10, entryMar09,
            Entry.mk "id-new" "fourth" "good" ImageRef.null 1710068400000] := by
  refine ⟨by decide, by decide, by decide⟩

/-! ## Updating and adding entries -/

/-- C6, as stated, fails: updating an id that no entry carries completes successfully and
leaves state and store as they were. -/
theorem unknown_id_update_completes :
    (∀ e ∈ (readyState [entryMar09]).entries, e.id ≠ "id-unknown") ∧
      updateEntry none (readyState [entryMar09]) "id-unknown"
          (contentUpdate "edited")
        = (readyState [entryMar09], Except.ok ()) := by
  refine ⟨by decide, rfl⟩

/-- C6, amended: for an id that no entry carries, `updateEntry` raises no not-found error;
it leaves the in-memory collection as it was, completes successfully with that collection
written to the store when the write succeeds, and fails only by rethrowing the error of the
store write. -/
theorem updateEntry_unknown_id (writeError : Option String) (s : AppState) (entryId : String)
    (updates : Updates) (h : ∀ e ∈ s.entries, e.id ≠ entryId) :
    (updateEntry writeError s entryId updates).1.entries = s.entries ∧
      (writeError = none → updateEntry writeError s entryId updates
        = ({ s with stored := some s.entries }, Except.ok ())) ∧
      (∀ err, (updateEntry writeError s entryId updates).2 = Except.error err →
        writeError = some err) := by
  have hmap := map_eq_self_of_no_match s.entries entryId updates h
  refine ⟨by rw [updateEntry_entries, hmap], ?_, ?_⟩
  · intro hw
    subst hw
    simp only [updateEntry, saveEntries, hmap]
  · intro err herr
    cases writeError with
    | none => simp [updateEntry, saveEntries] at herr
    | some e2 =>
      simp only [updateEntry, saveEntries, Except.error.injEq] at herr
      rw [herr]

/-- C6, amended, on a one-entry collection and an unknown id, the write succeeding. -/
theorem updateEntry_unknown_id_witness :
    updateEntry none (readyState [entryMar09]) "id-unknown"
        (contentUpdate "edited")
      = ({ readyState [entryMar09] with stored := some [entryMar09] }, Except.ok ()) :=
  (updateEntry_unknown_id none (readyState [entryMar09]) "id-unknown"
    (contentUpdate "edited")
    (by decide)).2.1 rfl

/-- C7, as stated, fails: `addEntry` with the mood `ecstatic`, which is none of the five
mood values, returns the new id and appends the entry. -/
theorem unrecognized_mood_add_completes :
    "ecstatic" ∉ moodOptions.map (fun m => m.value) ∧
      addEntry 1710068400000 "id-new" none (readyState [entryMar09]) "text" "ecstatic"
          ImageRef.null
        = (readyState [entryMar09,
            Entry.mk "id-new" "text" "ecstatic" ImageRef.null 1710068400000],
          Except.ok "id-new") := by
  refine ⟨by decide, rfl⟩

/-- C7, amended: for a mood outside the five mood values `addEntry` raises no invalid-mood
error; it appends the new entry carrying that mood, returns the new id when the store write
succeeds, and fails only by rethrowing the error of the store write. -/
theorem addEntry_unrecognized_mood (now : Int) (uuid : String) (writeError : Option String)
    (s : AppState) (content mood : String) (imageUri : ImageRef)
    (_hmood : mood ∉ moodOptions.map (fun m => m.value)) :
    (addEntry now uuid writeError s content mood imageUri).1.entries =
        s.entries ++ [Entry.mk uuid content mood imageUri now] ∧
      (writeError = none →
        (addEntry now uuid writeError s content mood imageUri).2 = Except.ok uuid) ∧
      (∀ err, (addEntry now uuid writeError s content mood imageUri).2 = Except.error err →
        writeError = some err) := by
  refine ⟨addEntry_entries _ _ _ _ _ _ _, ?_, ?_⟩
  · intro hw
    subst hw
    rfl
  · intro err herr
    cases writeError with
    | none => simp [addEntry, saveEntries] at herr
    | some e2 =>
      simp only [addEntry, saveEntries, Except.error.injEq] at herr
      rw [herr]

/-- C7, amended, for the mood `ecstatic`, the write succeeding. -/
theorem addEntry_unrecognized_mood_witness :
    (addEntry 1710068400000 "id-new" none (readyState [entryMar09]) "text" "ecstatic"
        ImageRef.null).1.entries
      = [entryMar09] ++ [Entry.mk "id-new" "text" "ecstatic" ImageRef.null 1710068400000] :=
  (addEntry_unrecognized_mood 1710068400000 "id-new" none (readyState [entryMar09]) "text"
    "ecstatic" ImageRef.null (by decide)).1

/-- C8, as stated, fails: `updateEntry('id-10', { id: 'id-x', timestamp: <1 January 1970> })`
on the collection of `entryMar09` and `entryMar10` completes and leaves the second entry
with the id `id-x` and the timestamp 0 in place of `id-10` and 10 March 2024 10:00 UTC: the
spread copies every property of `updates` over the entry. -/
theorem updateEntry_overwrites_id_and_timestamp :
    (updateEntry none (readyState [entryMar09, entryMar10]) "id-10"
        (Updates.mk (some "id-x") none none none (some 0))).1.entries.map
        (fun e => (e.id, e.timestamp))
      = [("id-09", 1709978400000), ("id-x", 0)] ∧
    (readyState [entryMar09, entryMar10]).entries.map (fun e => (e.id, e.timestamp))
      = [("id-09", 1709978400000), ("id-10", 1710064800000)] ∧
    (updateEntry none (readyState [entryMar09, entryMar10]) "id-10"
        (Updates.mk (some "id-x") none none none (some 0))).2 = Except.ok () ∧
    (updateEntry none (readyState [entryMar09, entryMar10]) "id-10"
        (Updates.mk (some "id-x") none none none (some 0))).1.stored
      = some [entryMar09, Entry.mk "id-x" "third" "amazing" (ImageRef.uri "file:///p.jpg") 0] :=
  ⟨by decide, by decide, rfl, by decide⟩

/-- C8, amended: when `updates` has no `id` and no `timestamp` property (as the object of
content, mood and image that the edit form passes), every entry has after `updateEntry`
the id and the timestamp it had before, at the same position of the collection, whatever
the outcome of the write. -/
theorem updateEntry_preserves_id_and_timestamp (writeError : Option String) (s : AppState)
    (entryId : String) (updates : Updates) (hid : updates.id = none)
    (hts : updates.timestamp = none) :
    (updateEntry writeError s entryId updates).1.entries.map (fun e => (e.id, e.timestamp))
      = s.entries.map (fun e => (e.id, e.timestamp)) := by
  rw [updateEntry_entries, List.map_map]
  apply List.map_congr_left
  intro e _
  by_cases h : e.id = entryId
  · simp [spread, hid, hts, h]
  · simp [h]

/-- C8, amended, on a two-entry collection: the object of the edit form changes content, mood
and image of one entry and no id or timestamp. -/
theorem updateEntry_preserves_id_and_timestamp_witness :
    (updateEntry none (readyState [entryMar09, entryMar10]) "id-10"
        (formUpdate "edited" "poor" ImageRef.null)).1.entries.map
        (fun e => (e.id, e.timestamp))
      = (readyState [entryMar09, entryMar10]).entries.map (fun e => (e.id, e.timestamp)) :=
  updateEntry_preserves_id_and_timestamp none (readyState [entryMar09, entryMar10]) "id-10"
    (formUpdate "edited" "poor" ImageRef.null) rfl rfl

/-- C9: when some entry carries the id `i`, `getEntryById i` finds an entry before the
update, and after `updateEntry i {content: X}` it finds that entry with content `X` and with
its id, mood, image and timestamp unchanged. -/
theorem updateEntry_content_getEntryById (writeError : Option String) (s : AppState)
    (i X : String) (h : ∃ e ∈ s.entries, e.id = i) :
    ∃ before : Entry, getEntryById s i = some before ∧
      getEntryById (updateEntry writeError s i
          (contentUpdate X)).1 i
        = some (Entry.mk before.id X before.mood before.image before.timestamp) := by
  obtain ⟨e, he, hei⟩ := h
  have hsome : (s.entries.find? (fun entry => decide (entry.id = i))).isSome := by
    rw [List.find?_isSome]
    exact ⟨e, he, by simp [hei]⟩
  obtain ⟨before, hbefore⟩ := Option.isSome_iff_exists.1 hsome
  refine ⟨before, hbefore, ?_⟩
  unfold getEntryById
  rw [updateEntry_entries, find?_map_update _ _ _ rfl, hbefore]
  rfl

/-- C9 on a two-entry collection. -/
theorem updateEntry_content_getEntryById_witness :
    ∃ before : Entry, getEntryById (readyState [entryMar09, entryMar10]) "id-10" = some before ∧
      getEntryById (updateEntry none (readyState [entryMar09, entryMar10]) "id-10"
          (contentUpdate "edited")).1 "id-10"
        = some (Entry.mk before.id "edited" before.mood before.image before.timestamp) :=
  updateEntry_content_getEntryById none (readyState [entryMar09, entryMar10]) "id-10" "edited"
    ⟨entryMar10, by decide, rfl⟩

/-- C10: when `addEntry` returns an id, the in-memory collection is the old collection
followed by exactly one new entry, which carries the returned id, the content, mood and
image that were passed and the current instant as timestamp; the same sequence is what the
store then holds. -/
theorem addEntry_success (now : Int) (uuid : String) (writeError : Option String)
    (s : AppState) (content mood : String) (imageUri : ImageRef) (newId : String)
    (h : (addEntry now uuid writeError s content mood imageUri).2 = Except.ok newId) :
    (addEntry now uuid writeError s content mood imageUri).1.entries =
        s.entries ++ [Entry.mk newId content mood imageUri now] ∧
      (addEntry now uuid writeError s content mood imageUri).1.stored =
        some (addEntry now uuid writeError s content mood imageUri).1.entries := by
  cases writeError with
  | some err => simp [addEntry, saveEntries] at h
  | none =>
    simp only [addEntry, saveEntries, Except.ok.injEq] at h
    subst h
    exact ⟨rfl, rfl⟩

/-- C10 on a one-entry collection, the write succeeding. -/
theorem addEntry_success_witness :
    (addEntry 1710068400000 "id-new" none (readyState [entryMar09]) "text" "good"
        (ImageRef.uri "file:///q.jpg")).1.entries
      = [entryMar09] ++
          [Entry.mk "id-new" "text" "good" (ImageRef.uri "file:///q.jpg") 1710068400000] :=
  (addEntry_success 1710068400000 "id-new" none (readyState [entryMar09]) "text" "good"
    (ImageRef.uri "file:///q.jpg") "id-new" rfl).1

/-! ## Failed writes, deletion, lookup and id uniqueness -/

theorem deleteEntry_entries (writeError : Option String) (s : AppState) (entryId : String) :
    (deleteEntry writeError s entryId).1.entries =
      s.entries.filter (fun entry => decide (entry.id ≠ entryId)) := by
  cases writeError <;> rfl

theorem filter_ne_eq_self (entries : List Entry) (entryId : String)
    (h : ∀ e ∈ entries, e.id ≠ entryId) :
    entries.filter (fun entry => decide (entry.id ≠ entryId)) = entries := by
  rw [List.filter_eq_self]
  intro e he
  simpa using h e he

theorem addEntries_entries (calls : List AddCall) (s : AppState) :
    (addEntries calls s).entries =
      s.entries ++ calls.map (fun c => Entry.mk c.uuid c.content c.mood c.imageUri c.now) := by
  induction calls generalizing s with
  | nil => simp [addEntries]
  | cons c t ih =>
    have hstep : addEntries (c :: t) s =
        addEntries t (addEntry c.now c.uuid c.writeError s c.content c.mood c.imageUri).1 := rfl
    rw [hstep, ih, addEntry_entries]
    simp

theorem map_ne_self_of_changed (entries : List Entry) (entryId : String) (updates : Updates)
    (h : ∃ e ∈ entries, e.id = entryId ∧ spread e updates ≠ e) :
    entries.map (fun entry => if entry.id = entryId then spread entry updates else entry)
      ≠ entries := by
  induction entries with
  | nil =>
    obtain ⟨e, he, _⟩ := h
    simp at he
  | cons a t ih =>
    intro heq
    simp only [List.map_cons, List.cons.injEq] at heq
    obtain ⟨e, he, hid, hne⟩ := h
    rcases List.mem_cons.1 he with rfl | het
    · rw [if_pos hid] at heq
      exact hne heq.1
    · exact ih ⟨e, het, hid, hne⟩ heq.2

theorem filter_ne_self_of_mem (entries : List Entry) (entryId : String)
    (h : ∃ e ∈ entries, e.id = entryId) :
    entries.filter (fun entry => decide (entry.id ≠ entryId)) ≠ entries := by
  intro heq
  obtain ⟨e, he, hid⟩ := h
  have := (List.filter_eq_self.1 heq) e he
  simp [hid] at this

/-- C11: when the store write fails with `err`, each of `addEntry`, `updateEntry` and
`deleteEntry` throws `err` and sets the current error, leaves the stored document as it was,
and the in-memory collection is the fully applied change: the old collection followed by the
new entry, the collection with every matching entry merged, the collection without the
matching entries. It is not the old collection: never for an add, and for an update or a
delete whenever the call had something to change. -/
theorem failed_write_keeps_applied_change (err : String) (s : AppState) (now : Int)
    (uuid content mood : String) (imageUri : ImageRef) (entryId : String)
    (updates : Updates) :
    ((addEntry now uuid (some err) s content mood imageUri).2 = Except.error err ∧
      (addEntry now uuid (some err) s content mood imageUri).1.error
        = some "Failed to save your journal entry" ∧
      (addEntry now uuid (some err) s content mood imageUri).1.entries
        = s.entries ++ [Entry.mk uuid content mood imageUri now] ∧
      (addEntry now uuid (some err) s content mood imageUri).1.entries ≠ s.entries ∧
      (addEntry now uuid (some err) s content mood imageUri).1.stored = s.stored) ∧
    ((updateEntry (some err) s entryId updates).2 = Except.error err ∧
      (updateEntry (some err) s entryId updates).1.error
        = some "Failed to update your journal entry" ∧
      (updateEntry (some err) s entryId updates).1.entries
        = s.entries.map
            (fun entry => if entry.id = entryId then spread entry updates else entry) ∧
      ((∃ e ∈ s.entries, e.id = entryId ∧ spread e updates ≠ e) →
        (updateEntry (some err) s entryId updates).1.entries ≠ s.entries) ∧
      (updateEntry (some err) s entryId updates).1.stored = s.stored) ∧
    ((deleteEntry (some err) s entryId).2 = Except.error err ∧
      (deleteEntry (some err) s entryId).1.error
        = some "Failed to delete your journal entry" ∧
      (deleteEntry (some err) s entryId).1.entries
        = s.entries.filter (fun entry => decide (entry.id ≠ entryId)) ∧
      ((∃ e ∈ s.entries, e.id = entryId) →
        (deleteEntry (some err) s entryId).1.entries ≠ s.entries) ∧
      (deleteEntry (some err) s entryId).1.stored = s.stored) := by
  refine ⟨⟨rfl, rfl, rfl, ?_, rfl⟩, ⟨rfl, rfl, rfl, ?_, rfl⟩, ⟨rfl, rfl, rfl, ?_, rfl⟩⟩
  · intro h
    have hlen := congrArg List.length h
    rw [addEntry_entries] at hlen
    simp at hlen
  · intro h
    rw [updateEntry_entries]
    exact map_ne_self_of_changed s.entries entryId updates h
  · intro h
    rw [deleteEntry_entries]
    exact filter_ne_self_of_mem s.entries entryId h

/-- C11 on a two-entry collection, the write failing with `quota`: the update of the content
of one entry and the deletion of that entry both leave a collection other than the old
one. -/
theorem failed_write_keeps_applied_change_witness :
    (updateEntry (some "quota") (readyState [entryMar09, entryMar10]) "id-10"
        (contentUpdate "edited")).1.entries ≠ [entryMar09, entryMar10] ∧
      (deleteEntry (some "quota") (readyState [entryMar09, entryMar10]) "id-10").1.entries
        ≠ [entryMar09, entryMar10] :=
  ⟨(failed_write_keeps_applied_change "quota" (readyState [entryMar09, entryMar10])
      1710068400000 "id-new" "text" "good" ImageRef.null "id-10"
      (contentUpdate "edited")).2.1.2.2.2.1 ⟨entryMar10, by decide, rfl, by decide⟩,
    (failed_write_keeps_applied_change "quota" (readyState [entryMar09, entryMar10])
      1710068400000 "id-new" "text" "good" ImageRef.null "id-10"
      (contentUpdate "edited")).2.2.2.2.2.1 ⟨entryMar10, by decide, rfl⟩⟩

/-- C12: a second `deleteEntry` of the same id, its write succeeding, leaves the in-memory
collection of the first call as it is and returns normally; when the first write succeeded
too, the second call changes nothing at all. -/
theorem deleteEntry_twice (writeError : Option String) (s : AppState) (entryId : String) :
    (deleteEntry none (deleteEntry writeError s entryId).1 entryId).1.entries
        = (deleteEntry writeError s entryId).1.entries ∧
      (deleteEntry none (deleteEntry writeError s entryId).1 entryId).2 = Except.ok () ∧
      deleteEntry none (deleteEntry none s entryId).1 entryId
        = ((deleteEntry none s entryId).1, Except.ok ()) := by
  have hfilter : ∀ l : List Entry,
      (l.filter (fun entry => decide (entry.id ≠ entryId))).filter
          (fun entry => decide (entry.id ≠ entryId))
        = l.filter (fun entry => decide (entry.id ≠ entryId)) := by
    intro l
    rw [List.filter_filter]
    simp
  refine ⟨?_, rfl, ?_⟩
  · rw [deleteEntry_entries, deleteEntry_entries, hfilter]
  · simp only [deleteEntry, saveEntries, hfilter]

/-- C13: after `deleteEntry(id)` the lookup of `id` finds nothing; what remains is the old
collection without the entries of that id, each other entry as often as before and in the
old relative order; and when no entry had the id, the collection is unchanged and a
succeeding write gives a normal return with the error state untouched. -/
theorem deleteEntry_removes_only_id (writeError : Option String) (s : AppState)
    (entryId : String) :
    getEntryById (deleteEntry writeError s entryId).1 entryId = none ∧
      (deleteEntry writeError s entryId).1.entries.Sublist s.entries ∧
      (∀ e : Entry, e.id ≠ entryId →
        (deleteEntry writeError s entryId).1.entries.count e = s.entries.count e) ∧
      (∀ e ∈ (deleteEntry writeError s entryId).1.entries, e.id ≠ entryId) ∧
      ((∀ e ∈ s.entries, e.id ≠ entryId) →
        (deleteEntry writeError s entryId).1.entries = s.entries ∧
        deleteEntry none s entryId = ({ s with stored := some s.entries }, Except.ok ())) := by
  refine ⟨?_, ?_, ?_, ?_, ?_⟩
  · unfold getEntryById
    rw [deleteEntry_entries, List.find?_eq_none]
    intro x hx
    have := (List.mem_filter.1 hx).2
    simpa using this
  · rw [deleteEntry_entries]
    exact List.filter_sublist _
  · intro e he
    rw [deleteEntry_entries, List.count_filter]
    simpa using he
  · intro e he
    rw [deleteEntry_entries] at he
    simpa using (List.mem_filter.1 he).2
  · intro h
    have hf := filter_ne_eq_self s.entries entryId h
    refine ⟨by rw [deleteEntry_entries, hf], ?_⟩
    simp only [deleteEntry, saveEntries, hf]

/-- C13 on a two-entry collection and an id that no entry carries. -/
theorem deleteEntry_removes_only_id_witness :
    (deleteEntry none (readyState [entryMar09, entryMar10]) "id-unknown").1.entries
        = [entryMar09, entryMar10] ∧
      deleteEntry none (readyState [entryMar09, entryMar10]) "id-unknown"
        = ({ readyState [entryMar09, entryMar10] with
              stored := some [entryMar09, entryMar10] }, Except.ok ()) :=
  (deleteEntry_removes_only_id none (readyState [entryMar09, entryMar10]) "id-unknown").2.2.2.2
    (by decide)

/-- C14: `getEntryById(id)` is absent exactly when no entry carries `id`, and otherwise it is
the first entry of the collection carrying `id`: every entry before it has another id. The
lookup is a function of the state and yields nothing but the entry found, so collection,
error state and store are what they were. -/
theorem getEntryById_first_match (s : AppState) (entryId : String) :
    (getEntryById s entryId = none ↔ ∀ e ∈ s.entries, e.id ≠ entryId) ∧
      (∀ e : Entry, getEntryById s entryId = some e ↔
        e.id = entryId ∧ ∃ before after, s.entries = before ++ e :: after ∧
          ∀ x ∈ before, x.id ≠ entryId) := by
  refine ⟨?_, ?_⟩
  · unfold getEntryById
    rw [List.find?_eq_none]
    simp
  · intro e
    unfold getEntryById
    rw [List.find?_eq_some]
    simp

/-- C15, as stated, fails: `addEntry` takes the id from `uuid.v4()` and compares it with
nothing. Two calls on the empty collection in which `uuid.v4()` returns `id-a` both times
leave the ids `id-a`, `id-a`; one call in which it returns `id-09` on a collection that holds
an entry `id-09` leaves `id-09`, `id-09`. Both starting collections have pairwise distinct
ids and every call returns its id. -/
theorem repeated_uuid_repeats_id :
    (addEntries
        [AddCall.mk 1710064800000 "id-a" none "one" "good" ImageRef.null,
          AddCall.mk 1710068400000 "id-a" none "two" "poor" ImageRef.null]
        (readyState [])).entries.map (fun e => e.id) = ["id-a", "id-a"] ∧
      ((readyState []).entries.map (fun e => e.id)).Nodup ∧
      ¬ ((addEntries
        [AddCall.mk 1710064800000 "id-a" none "one" "good" ImageRef.null,
          AddCall.mk 1710068400000 "id-a" none "two" "poor" ImageRef.null]
        (readyState [])).entries.map (fun e => e.id)).Nodup ∧
      (addEntry 1710068400000 "id-09" none (readyState [entryMar09]) "two" "poor"
        ImageRef.null).2 = Except.ok "id-09" ∧
      (addEntry 1710068400000 "id-09" none (readyState [entryMar09]) "two" "poor"
        ImageRef.null).1.entries.map (fun e => e.id) = ["id-09", "id-09"] ∧
      ((readyState [entryMar09]).entries.map (fun e => e.id)).Nodup :=
  ⟨by decide, by decide, by decide, rfl, by decide, by decide⟩

/-- C15, amended: after a sequence of `addEntry` calls, each running on the collection the
previous call left, the ids of the collection are the ids it started with, in their places,
followed by the values `uuid.v4()` returned, call by call, whether the writes succeed or
fail; so the resulting ids are pairwise distinct exactly when the starting ids are pairwise
distinct, the returned values are pairwise distinct, and none of them is an id of the
starting collection. -/
theorem addEntries_ids (calls : List AddCall) (s : AppState) :
    (addEntries calls s).entries.map (fun e => e.id)
        = s.entries.map (fun e => e.id) ++ calls.map (fun c => c.uuid) ∧
      (((addEntries calls s).entries.map (fun e => e.id)).Nodup ↔
        (s.entries.map (fun e => e.id)).Nodup ∧ (calls.map (fun c => c.uuid)).Nodup ∧
          ∀ c ∈ calls, c.uuid ∉ s.entries.map (fun e => e.id)) := by
  have hmap : (fun e : Entry => e.id) ∘
      (fun c : AddCall => Entry.mk c.uuid c.content c.mood c.imageUri c.now)
      = fun c => c.uuid := rfl
  have hids : (addEntries calls s).entries.map (fun e => e.id)
      = s.entries.map (fun e => e.id) ++ calls.map (fun c => c.uuid) := by
    rw [addEntries_entries, List.map_append, List.map_map, hmap]
  refine ⟨hids, ?_⟩
  rw [hids, List.nodup_append]
  constructor
  · rintro ⟨h1, h2, h3⟩
    refine ⟨h1, h2, ?_⟩
    intro c hc hmem
    exact h3 hmem (List.mem_map.2 ⟨c, hc, rfl⟩)
  · rintro ⟨h1, h2, h3⟩
    refine ⟨h1, h2, ?_⟩
    intro a ha hb
    obtain ⟨c, hc, rfl⟩ := List.mem_map.1 hb
    exact h3 c hc ha

/-! ## Mood histogram -/

theorem addCount_zero (record : MoodCount) : addCount record 0 = record := rfl

theorem addCount_addCount (record : MoodCount) (a b : Nat) :
    addCount (addCount record a) b = addCount record (a + b) := by
  simp only [addCount, Nat.add_assoc]

theorem getProperty_cons_ne (k : String) (r : MoodCount) (rest : MoodCounts) (key : String)
    (h : k ≠ key) : getProperty ((k, r) :: rest) key = getProperty rest key := by
  simp [getProperty, List.find?_cons, h]

theorem getProperty_cons_eq (k : String) (r : MoodCount) (rest : MoodCounts) (key : String)
    (h : k = key) : getProperty ((k, r) :: rest) key = Property.own r := by
  simp [getProperty, List.find?_cons, h]

theorem countEntry_cons_ne (k : String) (r : MoodCount) (rest : MoodCounts) (e : Entry)
    (h : k ≠ e.mood) : countEntry ((k, r) :: rest) e = (k, r) :: countEntry rest e := by
  unfold countEntry
  rw [getProperty_cons_ne k r rest e.mood h]
  cases getProperty rest e.mood with
  | own record => simp [assign, h]
  | inherited => rfl
  | undefined => rfl

theorem countEntry_cons_eq (k : String) (r : MoodCount) (rest : MoodCounts) (e : Entry)
    (h : k = e.mood) : countEntry ((k, r) :: rest) e = (k, addCount r 1) :: rest := by
  unfold countEntry
  rw [getProperty_cons_eq k r rest e.mood h]
  simp [assign, h, addCount]

theorem countEntry_eq_map (moodCounts : MoodCounts) (e : Entry)
    (hnd : (moodCounts.map Prod.fst).Nodup) :
    countEntry moodCounts e =
      moodCounts.map (fun kv => (kv.1, addCount kv.2 (if kv.1 = e.mood then 1 else 0))) := by
  induction moodCounts with
  | nil =>
    by_cases hp : e.mood ∈ objectPrototypeKeys <;> simp [countEntry, getProperty, hp]
  | cons kv rest ih =>
    obtain ⟨k, r⟩ := kv
    simp only [List.map_cons, List.nodup_cons] at hnd
    by_cases hk : k = e.mood
    · rw [countEntry_cons_eq k r rest e hk]
      have hrest : rest.map
          (fun kv => (kv.1, addCount kv.2 (if kv.1 = e.mood then 1 else 0))) = rest := by
        conv_rhs => rw [← List.map_id rest]
        apply List.map_congr_left
        intro kv hkv
        have hne : kv.1 ≠ e.mood := by
          intro heq
          apply hnd.1
          rw [hk, ← heq]
          exact List.mem_map_of_mem Prod.fst hkv
        simp [hne, addCount_zero]
      simp only [List.map_cons, hk, if_true, hrest]
    · rw [countEntry_cons_ne k r rest e hk, ih hnd.2]
      simp only [List.map_cons, hk, if_false, addCount_zero]

theorem foldl_countEntry (entries : List Entry) :
    ∀ moodCounts : MoodCounts, (moodCounts.map Prod.fst).Nodup →
      entries.foldl countEntry moodCounts =
        moodCounts.map (fun kv =>
          (kv.1, addCount kv.2 (entries.countP (fun e => decide (e.mood = kv.1))))) := by
  induction entries with
  | nil =>
    intro moodCounts _
    simp [addCount_zero]
  | cons e t ih =>
    intro moodCounts hnd
    have hkeys : (moodCounts.map
        (fun kv => (kv.1, addCount kv.2 (if kv.1 = e.mood then 1 else 0)))).map Prod.fst
        = moodCounts.map Prod.fst := by
      rw [List.map_map]
      rfl
    rw [List.foldl_cons, countEntry_eq_map moodCounts e hnd, ih _ (by rw [hkeys]; exact hnd),
      List.map_map]
    apply List.map_congr_left
    intro kv _
    simp only [Function.comp, addCount_addCount, List.countP_cons, decide_eq_true_eq]
    congr 2
    by_cases h : kv.1 = e.mood
    · simp [h, Nat.add_comm]
    · have h2 : ¬ e.mood = kv.1 := fun h3 => h h3.symm
      simp [h, h2]

theorem getMoodData_eq (s : AppState) :
    getMoodData s = moodOptions.map (fun m =>
      { count := s.entries.countP (fun e => decide (e.mood = m.value)), label := m.label,
        color := m.color, emoji := m.emoji }) := by
  unfold getMoodData
  rw [foldl_countEntry s.entries initialMoodCounts (by decide)]
  simp [initialMoodCounts, moodOptions, assign, addCount]

theorem countP_mem_cons {α : Type} [DecidableEq α] (f : Entry → α) (v : α) (vs : List α)
    (hv : v ∉ vs) (l : List Entry) :
    l.countP (fun e => decide (f e ∈ v :: vs))
      = l.countP (fun e => decide (f e = v)) + l.countP (fun e => decide (f e ∈ vs)) := by
  induction l with
  | nil => rfl
  | cons e t ih =>
    rw [List.countP_cons, List.countP_cons, List.countP_cons, ih]
    by_cases h1 : f e = v
    · simp only [h1, hv, List.mem_cons_self, decide_True, decide_False, if_true,
        Bool.false_eq_true, if_false]
      omega
    · by_cases h2 : f e ∈ vs
      · have h3 : f e ∈ v :: vs := List.mem_cons.2 (Or.inr h2)
        simp only [h1, h2, h3, decide_True, decide_False, if_true, Bool.false_eq_true,
          if_false]
        omega
      · have h3 : f e ∉ v :: vs := by
          intro h
          rcases List.mem_cons.1 h with h | h
          · exact h1 h
          · exact h2 h
        simp only [h1, h2, h3, decide_False, Bool.false_eq_true, if_false]
        omega

theorem sum_countP_eq {α : Type} [DecidableEq α] (f : Entry → α) (vs : List α)
    (hnd : vs.Nodup) (l : List Entry) :
    (vs.map (fun v => l.countP (fun e => decide (f e = v)))).sum
      = l.countP (fun e => decide (f e ∈ vs)) := by
  induction vs with
  | nil => simp
  | cons v t ih =>
    rw [List.nodup_cons] at hnd
    rw [List.map_cons, List.sum_cons, ih hnd.2, countP_mem_cons f v t hnd.1 l]

/-- C16: `getMoodData` returns five records, those of amazing, good, okay, poor and terrible
in that order (each with the label, color and emoji of its mood), and the count of each is
the number of entries whose mood is that key. -/
theorem getMoodData_counts (s : AppState) :
    (getMoodData s).length = 5 ∧
      (getMoodData s).map (fun r => r.label) = ["Amazing", "Good", "Okay", "Poor", "Terrible"] ∧
      getMoodData s = moodOptions.map (fun m =>
        { count := s.entries.countP (fun e => decide (e.mood = m.value)), label := m.label,
          color := m.color, emoji := m.emoji }) ∧
      moodOptions.map (fun m => m.value) = ["amazing", "good", "okay", "poor", "terrible"] := by
  refine ⟨?_, ?_, getMoodData_eq s, rfl⟩
  · rw [getMoodData_eq]
    rfl
  · rw [getMoodData_eq]
    rfl

/-- C17: the five counts of `getMoodData` add up to the number of entries whose mood is one
of the five mood values. -/
theorem getMoodData_total (s : AppState) :
    ((getMoodData s).map (fun r => r.count)).sum
      = s.entries.countP (fun e => decide (e.mood ∈ moodOptions.map (fun m => m.value))) := by
  rw [getMoodData_eq, List.map_map,
    ← sum_countP_eq (fun e => e.mood) (moodOptions.map (fun m => m.value)) (by decide) s.entries,
    List.map_map]
  rfl

/-! ## Weekday histogram -/

theorem getDay_lt (off t : Int) : getDay off t < 7 := by
  unfold getDay
  omega

theorem length_incrementAt (counts : List Nat) (j : Nat) :
    (incrementAt counts j).length = counts.length := by
  induction counts generalizing j with
  | nil => rfl
  | cons c rest ih =>
    cases j with
    | zero => rfl
    | succ j => simp only [incrementAt, List.length_cons, ih]

theorem getD_incrementAt (counts : List Nat) (j i : Nat) :
    (incrementAt counts j).getD i 0
      = counts.getD i 0 + if i = j ∧ j < counts.length then 1 else 0 := by
  induction counts generalizing i j with
  | nil => simp [incrementAt]
  | cons c rest ih =>
    cases j with
    | zero =>
      cases i with
      | zero => simp [incrementAt]
      | succ i => simp [incrementAt]
    | succ j =>
      cases i with
      | zero => simp [incrementAt]
      | succ i =>
        have h := ih j i
        simp only [incrementAt, List.getD_cons_succ, List.length_cons, Nat.add_lt_add_iff_right,
          Nat.add_right_cancel_iff]
        exact h

theorem eq_of_getD_eq : ∀ (l₁ l₂ : List Nat), l₁.length = l₂.length →
    (∀ i, i < l₁.length → l₁.getD i 0 = l₂.getD i 0) → l₁ = l₂ := by
  intro l₁
  induction l₁ with
  | nil =>
    intro l₂ hlen _
    cases l₂ with
    | nil => rfl
    | cons b t => simp at hlen
  | cons a t ih =>
    intro l₂ hlen h
    cases l₂ with
    | nil => simp at hlen
    | cons b t2 =>
      have h0 : a = b := h 0 (Nat.succ_pos _)
      have ht : t = t2 := by
        apply ih t2 (by simpa using hlen)
        intro i hi
        exact h (i + 1) (Nat.succ_lt_succ hi)
      rw [h0, ht]

theorem foldl_incrementAt (off : Int) (l : List Entry) :
    ∀ counts : List Nat, counts.length = 7 →
      (l.foldl (fun counts entry => incrementAt counts (getDay off entry.timestamp))
          counts).length = 7 ∧
        ∀ i, (l.foldl (fun counts entry => incrementAt counts (getDay off entry.timestamp))
            counts).getD i 0
          = counts.getD i 0 + l.countP (fun e => decide (getDay off e.timestamp = i)) := by
  induction l with
  | nil =>
    intro counts hlen
    exact ⟨hlen, fun i => rfl⟩
  | cons e t ih =>
    intro counts hlen
    have hlen2 : (incrementAt counts (getDay off e.timestamp)).length = 7 := by
      rw [length_incrementAt, hlen]
    obtain ⟨h1, h2⟩ := ih _ hlen2
    refine ⟨h1, ?_⟩
    intro i
    rw [List.foldl_cons, h2 i, getD_incrementAt, List.countP_cons, hlen]
    have hlt := getDay_lt off e.timestamp
    by_cases h : getDay off e.timestamp = i
    · subst h
      simp only [hlt, and_self, decide_True, if_true]
      omega
    · have h3 : ¬ i = getDay off e.timestamp := fun h4 => h h4.symm
      simp only [h3, h, false_and, decide_False, if_false, Bool.false_eq_true]
      omega

theorem length_weekdayCounts (off : Int) (entries : List Entry) :
    (weekdayCounts off entries).length = 7 :=
  (foldl_incrementAt off entries (List.replicate 7 0) rfl).1

theorem getD_weekdayCounts (off : Int) (entries : List Entry) (i : Nat) :
    (weekdayCounts off entries).getD i 0
      = entries.countP (fun e => decide (getDay off e.timestamp = i)) := by
  unfold weekdayCounts
  rw [(foldl_incrementAt off entries (List.replicate 7 0) rfl).2 i]
  have h0 : (List.replicate 7 0).getD i 0 = 0 := by
    by_cases hi : i < 7
    · rw [List.getD_eq_getElem _ _ (by simpa using hi), List.getElem_replicate]
    · rw [List.getD_eq_default _ _ (by simpa using hi)]
  rw [h0, Nat.zero_add]

theorem getEntryCountByWeekday_eq (off : Int) (s : AppState) :
    getEntryCountByWeekday off s = weekdays.enum.map (fun p =>
      WeekdayCount.mk p.2 (s.entries.countP (fun e => decide (getDay off e.timestamp = p.1)))) := by
  unfold getEntryCountByWeekday
  apply List.map_congr_left
  intro p _
  rw [getD_weekdayCounts]

theorem weekdayCounts_eq_range (off : Int) (entries : List Entry) :
    weekdayCounts off entries = (List.range 7).map
      (fun i => entries.countP (fun e => decide (getDay off e.timestamp = i))) := by
  apply eq_of_getD_eq
  · rw [length_weekdayCounts]
    rfl
  · intro i hi
    rw [length_weekdayCounts] at hi
    rw [getD_weekdayCounts, List.getD_eq_getElem _ _ (by simpa using hi)]
    simp

theorem map_count_getEntryCountByWeekday (off : Int) (s : AppState) :
    (getEntryCountByWeekday off s).map (fun r => r.count) = weekdayCounts off s.entries := by
  rw [getEntryCountByWeekday_eq, weekdayCounts_eq_range]
  rfl

theorem weekdayCounts_insert (off : Int) (before after : List Entry) (e : Entry) :
    weekdayCounts off (before ++ e :: after)
      = incrementAt (weekdayCounts off (before ++ after)) (getDay off e.timestamp) := by
  apply eq_of_getD_eq
  · rw [length_incrementAt, length_weekdayCounts, length_weekdayCounts]
  · intro i _
    rw [getD_incrementAt, getD_weekdayCounts, getD_weekdayCounts, length_weekdayCounts,
      List.countP_append, List.countP_append, List.countP_cons]
    have hlt := getDay_lt off e.timestamp
    by_cases h : getDay off e.timestamp = i
    · subst h
      simp only [hlt, and_self, decide_True, if_true]
      omega
    · have h3 : ¬ i = getDay off e.timestamp := fun h4 => h h4.symm
      simp only [h3, h, false_and, decide_False, if_false, Bool.false_eq_true]
      omega

theorem sum_weekdayCounts (off : Int) (entries : List Entry) :
    (weekdayCounts off entries).sum = entries.length := by
  rw [weekdayCounts_eq_range,
    sum_countP_eq (fun e => getDay off e.timestamp) (List.range 7) (by decide) entries,
    List.countP_eq_length]
  intro e _
  have := getDay_lt off e.timestamp
  simpa using this

/-- C19: `getEntryCountByWeekday` returns seven records named Sunday to Saturday in that
order, the record of weekday number `i` (0 for Sunday) counts the entries whose local
calendar day falls on weekday `i`, and the seven counts add up to the number of entries. -/
theorem getEntryCountByWeekday_counts (off : Int) (s : AppState) :
    (getEntryCountByWeekday off s).map (fun r => r.name)
        = ["Sunday", "Monday", "Tuesday", "Wednesday", "Thursday", "Friday", "Saturday"] ∧
      (getEntryCountByWeekday off s).map (fun r => r.count)
        = (List.range 7).map
            (fun i => s.entries.countP (fun e => decide (getDay off e.timestamp = i))) ∧
      ((getEntryCountByWeekday off s).map (fun r => r.count)).sum = s.entries.length := by
  refine ⟨?_, ?_, ?_⟩
  · rw [getEntryCountByWeekday_eq]
    rfl
  · rw [map_count_getEntryCountByWeekday, weekdayCounts_eq_range]
  · rw [map_count_getEntryCountByWeekday, sum_weekdayCounts]

/-- C18: an entry whose mood is none of the five mood values, the names of inherited object
properties included, leaves the result of `getMoodData` as it is without the entry, and
`getEntryCountByWeekday` counts it once, on the weekday of its local calendar day. Both
functions are total: no case of the two loops throws. -/
theorem foreign_mood_entry (off : Int) (s : AppState) (before after : List Entry) (e : Entry)
    (hmood : e.mood ∉ moodOptions.map (fun m => m.value)) :
    getMoodData { s with entries := before ++ e :: after }
        = getMoodData { s with entries := before ++ after } ∧
      (getEntryCountByWeekday off { s with entries := before ++ e :: after }).map
          (fun r => r.count)
        = incrementAt
            ((getEntryCountByWeekday off { s with entries := before ++ after }).map
              (fun r => r.count))
            (getDay off e.timestamp) ∧
      ((getEntryCountByWeekday off { s with entries := before ++ e :: after }).map
          (fun r => r.count)).sum
        = ((getEntryCountByWeekday off { s with entries := before ++ after }).map
            (fun r => r.count)).sum + 1 := by
  refine ⟨?_, ?_, ?_⟩
  · rw [getMoodData_eq, getMoodData_eq]
    apply List.map_congr_left
    intro m hm
    have hne : ¬ e.mood = m.value := by
      intro h
      apply hmood
      rw [h]
      exact List.mem_map_of_mem (fun m => m.value) hm
    simp only [List.countP_append, List.countP_cons, hne, decide_False, Bool.false_eq_true,
      if_false, Nat.add_zero]
  · rw [map_count_getEntryCountByWeekday, map_count_getEntryCountByWeekday]
    exact weekdayCounts_insert off before after e
  · rw [map_count_getEntryCountByWeekday, map_count_getEntryCountByWeekday,
      sum_weekdayCounts, sum_weekdayCounts]
    simp only [List.length_append, List.length_cons]
    omega

/-- C18 for an entry of mood `constructor`, an inherited property name, written on Sunday
10 March 2024 and standing between two other entries. -/
theorem foreign_mood_entry_witness :
    getProperty initialMoodCounts "constructor" = Property.inherited ∧
      getMoodData { readyState [] with entries := [entryMar08] ++ entryForeign :: [entryMar09] }
        = getMoodData { readyState [] with entries := [entryMar08] ++ [entryMar09] } ∧
      (getEntryCountByWeekday 0
          { readyState [] with entries := [entryMar08] ++ entryForeign :: [entryMar09] }).map
          (fun r => r.count)
        = [1, 0, 0, 0, 0, 1, 1] :=
  ⟨by decide,
    (foreign_mood_entry 0 (readyState []) [entryMar08] [entryMar09] entryForeign
      (by decide)).1,
    by decide⟩

/-! ## Grouping by day: the lists partition the collection -/

theorem flatten_pushEntry (grouped : Grouped) (date : Int) (entry : Entry) :
    ((pushEntry grouped date entry).map Prod.snd).flatten.Perm
      (entry :: (grouped.map Prod.snd).flatten) := by
  induction grouped with
  | nil => simp [pushEntry]
  | cons p rest ih =>
    obtain ⟨key, list⟩ := p
    unfold pushEntry
    by_cases hk : key = date
    · simp only [hk, if_true, List.map_cons, List.flatten_cons, List.append_assoc,
        List.singleton_append]
      exact List.perm_middle
    · simp only [hk, if_false, List.map_cons, List.flatten_cons]
      exact (List.Perm.append_left list ih).trans List.perm_middle

theorem flatten_foldl_pushEntry (off : Int) (l : List Entry) :
    ∀ grouped : Grouped,
      ((l.foldl (fun g entry => pushEntry g (localDate off entry.timestamp) entry)
          grouped).map Prod.snd).flatten.Perm
        ((grouped.map Prod.snd).flatten ++ l) := by
  induction l with
  | nil => intro grouped; simp
  | cons e t ih =>
    intro grouped
    rw [List.foldl_cons]
    refine (ih _).trans ?_
    refine (List.Perm.append_right t (flatten_pushEntry grouped _ e)).trans ?_
    simp only [List.cons_append]
    exact List.perm_middle.symm

theorem flatten_getEntriesByDate (off : Int) (s : AppState) :
    (((getEntriesByDate off s).1).map Prod.snd).flatten.Perm s.entries := by
  unfold getEntriesByDate
  refine (flatten_foldl_pushEntry off (sortNewestFirst s.entries) []).trans ?_
  simpa using sortNewestFirst_perm s.entries

/-- C20: the lists of `getEntriesByDate` partition the collection. Put one after the other
they are a rearrangement of the collection, so their lengths add up to the number of
entries; no two lists share a key and no list is empty; every entry of a list has the key
of the list as its local calendar day; hence an entry of the collection is in the list of
its local day and in no other. -/
theorem getEntriesByDate_partition (off : Int) (s : AppState) :
    (((getEntriesByDate off s).1).map Prod.snd).flatten.Perm s.entries ∧
      (((getEntriesByDate off s).1).map (fun p => p.2.length)).sum = s.entries.length ∧
      (((getEntriesByDate off s).1).map Prod.fst).Nodup ∧
      (∀ p ∈ (getEntriesByDate off s).1,
        p.2 ≠ [] ∧ ∀ e ∈ p.2, localDate off e.timestamp = p.1) ∧
      (∀ e ∈ s.entries, ∃ p ∈ (getEntriesByDate off s).1,
        e ∈ p.2 ∧ p.1 = localDate off e.timestamp ∧
          ∀ q ∈ (getEntriesByDate off s).1, e ∈ q.2 → q = p) := by
  have hperm := flatten_getEntriesByDate off s
  obtain ⟨hkeys, hgroups⟩ := getEntriesByDate_invariant off s
  have hnodup : (((getEntriesByDate off s).1).map Prod.fst).Nodup :=
    hkeys.imp (fun h => (ne_of_lt h).symm)
  refine ⟨hperm, ?_, hnodup, fun p hp => ⟨(hgroups p hp).1, (hgroups p hp).2.1⟩, ?_⟩
  · have hlen := hperm.length_eq
    rw [List.length_flatten, List.map_map] at hlen
    exact hlen
  · intro e he
    have hmem : e ∈ (((getEntriesByDate off s).1).map Prod.snd).flatten :=
      hperm.symm.subset he
    obtain ⟨l, hl, hel⟩ := List.mem_flatten.1 hmem
    obtain ⟨p, hp, rfl⟩ := List.mem_map.1 hl
    have hpk : localDate off e.timestamp = p.1 := (hgroups p hp).2.1 e hel
    refine ⟨p, hp, hel, hpk.symm, ?_⟩
    intro q hq heq
    have hqk : localDate off e.timestamp = q.1 := (hgroups q hq).2.1 e heq
    exact List.inj_on_of_nodup_map hnodup hq hp (hqk.symm.trans hpk)

/-! ## Grouping by month -/

theorem keys_pushInto {κ : Type} [DecidableEq κ] (grouped : List (κ × List Entry)) (key : κ)
    (entry : Entry) :
    (pushInto grouped key entry).map Prod.fst =
      if key ∈ grouped.map Prod.fst then grouped.map Prod.fst
      else grouped.map Prod.fst ++ [key] := by
  induction grouped with
  | nil => simp [pushInto]
  | cons p rest ih =>
    obtain ⟨k, list⟩ := p
    unfold pushInto
    by_cases hk : k = key
    · simp [hk]
    · have hk2 : ¬ key = k := fun h => hk h.symm
      simp only [hk, if_false, List.map_cons, ih, List.mem_cons, hk2, false_or]
      split <;> simp

theorem mem_pushInto {κ : Type} [DecidableEq κ] (grouped : List (κ × List Entry)) (key : κ)
    (entry : Entry) (hnd : (grouped.map Prod.fst).Nodup) (p : κ × List Entry)
    (hp : p ∈ pushInto grouped key entry) :
    (p ∈ grouped ∧ p.1 ≠ key) ∨
      (p.1 = key ∧ ((∃ list, (key, list) ∈ grouped ∧ p.2 = list ++ [entry]) ∨
        (key ∉ grouped.map Prod.fst ∧ p.2 = [entry]))) := by
  induction grouped with
  | nil =>
    simp only [pushInto, List.mem_singleton] at hp
    subst hp
    exact Or.inr ⟨rfl, Or.inr ⟨by simp, rfl⟩⟩
  | cons q rest ih =>
    obtain ⟨k, list⟩ := q
    simp only [List.map_cons, List.nodup_cons] at hnd
    unfold pushInto at hp
    by_cases hk : k = key
    · simp only [hk, if_true, List.mem_cons] at hp
      rcases hp with hp | hp
      · subst hp
        exact Or.inr ⟨rfl, Or.inl ⟨list, by simp [hk], rfl⟩⟩
      · refine Or.inl ⟨List.mem_cons_of_mem _ hp, ?_⟩
        intro hpk
        apply hnd.1
        rw [hk, ← hpk]
        exact List.mem_map_of_mem Prod.fst hp
    · simp only [hk, if_false, List.mem_cons] at hp
      rcases hp with hp | hp
      · subst hp
        exact Or.inl ⟨List.mem_cons_self _ _, hk⟩
      · rcases ih hnd.2 hp with h | ⟨h1, h2⟩
        · exact Or.inl ⟨List.mem_cons_of_mem _ h.1, h.2⟩
        · refine Or.inr ⟨h1, ?_⟩
          rcases h2 with ⟨l, hl, hpl⟩ | ⟨hnot, hpl⟩
          · exact Or.inl ⟨l, List.mem_cons_of_mem _ hl, hpl⟩
          · refine Or.inr ⟨?_, hpl⟩
            simp only [List.map_cons, List.mem_cons, not_or]
            exact ⟨fun h => hk h.symm, hnot⟩

theorem firstSeen_append_singleton {κ : Type} [DecidableEq κ] (keys : List κ) (key : κ) :
    firstSeen (keys ++ [key]) =
      if key ∈ firstSeen keys then firstSeen keys else firstSeen keys ++ [key] := by
  unfold firstSeen
  rw [List.foldl_append]
  rfl

theorem pushInto_invariant {κ : Type} [DecidableEq κ] (key : Entry → κ) (done : List Entry)
    (grouped : List (κ × List Entry)) (e : Entry) (h : GroupedByKey key done grouped) :
    GroupedByKey key (done ++ [e]) (pushInto grouped (key e) e) := by
  obtain ⟨hkeys, hnd, hlists, hseen⟩ := h
  have hk := keys_pushInto grouped (key e) e
  refine ⟨?_, ?_, ?_, ?_⟩
  · rw [hk, List.map_append, List.map_singleton, firstSeen_append_singleton, ← hkeys]
  · rw [hk]
    by_cases hmem : key e ∈ grouped.map Prod.fst
    · rw [if_pos hmem]
      exact hnd
    · rw [if_neg hmem, List.nodup_append]
      refine ⟨hnd, List.nodup_singleton _, ?_⟩
      intro a ha hb
      rw [List.mem_singleton] at hb
      exact hmem (hb ▸ ha)
  · intro p hp
    rcases mem_pushInto grouped (key e) e hnd p hp with ⟨hpg, hne⟩ | ⟨heq, hcase⟩
    · obtain ⟨h1, h2⟩ := hlists p hpg
      refine ⟨?_, h2⟩
      have hne2 : ¬ key e = p.1 := fun h => hne h.symm
      rw [List.filter_append, ← h1]
      simp [hne2]
    · rcases hcase with ⟨list, hl, hpl⟩ | ⟨hnot, hpl⟩
      · obtain ⟨h1, _⟩ := hlists (key e, list) hl
        have h1' : list = done.filter (fun x => decide (key x = key e)) := h1
        refine ⟨?_, by rw [hpl]; simp⟩
        rw [hpl, List.filter_append, heq, ← h1']
        simp
      · refine ⟨?_, by rw [hpl]; simp⟩
        have hnone : done.filter (fun x => decide (key x = key e)) = [] := by
          rw [List.filter_eq_nil_iff]
          intro x hx hkx
          apply hnot
          have := hseen x hx
          rw [of_decide_eq_true hkx] at this
          exact this
        rw [hpl, List.filter_append, heq, hnone]
        simp
  · intro x hx
    rw [hk]
    rcases List.mem_append.1 hx with hx | hx
    · have := hseen x hx
      split
      · exact this
      · exact List.mem_append_left _ this
    · rw [List.mem_singleton] at hx
      subst hx
      split
      · assumption
      · simp

theorem foldl_pushInto_invariant {κ : Type} [DecidableEq κ] (key : Entry → κ)
    (l : List Entry) :
    ∀ (done : List Entry) (grouped : List (κ × List Entry)), GroupedByKey key done grouped →
      GroupedByKey key (done ++ l) (l.foldl (fun g e => pushInto g (key e) e) grouped) := by
  induction l with
  | nil =>
    intro done grouped h
    simpa using h
  | cons e t ih =>
    intro done grouped h
    have h2 := ih (done ++ [e]) _ (pushInto_invariant key done grouped e h)
    simpa using h2

theorem getEntriesByMonth_invariant (off : Int) (s : AppState) :
    GroupedByKey (fun e => monthYear off e.timestamp) s.entries (getEntriesByMonth off s) := by
  have h := foldl_pushInto_invariant (fun e => monthYear off e.timestamp) s.entries [] []
    ⟨rfl, List.nodup_nil, by simp, by simp⟩
  simpa using h

/-! ### `civilFromDays` against the rules of the calendar -/

/-- The year of the era of a day given by its century `c`, its four-year cycle `q`, its year
`t` in the cycle and its day `u` in that year. -/
theorem yoe_of_parts (doe c q t u : Int)
    (h : doe = 36524 * c + 1461 * q + 365 * t + u)
    (hc0 : 0 ≤ c) (hc1 : c ≤ 3) (hq0 : 0 ≤ q) (hq1 : q ≤ 24) (ht0 : 0 ≤ t) (ht1 : t ≤ 3)
    (hu0 : 0 ≤ u) (hu1 : u ≤ 365) (hleap : u = 365 → t = 3)
    (hcent : u = 365 → q = 24 → c = 3) :
    (doe - doe / 1460 + doe / 36524 - doe / 146096) / 365 = 100 * c + 4 * q + t := by
  have he : doe / 1460 = 25 * c + q + (24 * c + q + 365 * t + u) / 1460 := by omega
  have hk : (24 * c + q + 365 * t + u) / 1460 = 0 ∨ (24 * c + q + 365 * t + u) / 1460 = 1 := by
    omega
  have hf : doe / 36524 = c ∨ (doe / 36524 = 4 ∧ c = 3 ∧ q = 24 ∧ t = 3 ∧ u = 365) := by omega
  have hg : doe / 146096 = 0 ∨ (doe / 146096 = 1 ∧ c = 3 ∧ q = 24 ∧ t = 3 ∧ u = 365) := by
    omega
  rcases hk with hk | hk <;> rcases hf with hf | hf <;> rcases hg with hg | hg <;>
    rw [he, hk] <;> omega

theorem parts_exist (doe : Int) (h0 : 0 ≤ doe) (h1 : doe ≤ 146096) :
    ∃ c q t u : Int, doe = 36524 * c + 1461 * q + 365 * t + u ∧
      0 ≤ c ∧ c ≤ 3 ∧ 0 ≤ q ∧ q ≤ 24 ∧ 0 ≤ t ∧ t ≤ 3 ∧ 0 ≤ u ∧ u ≤ 365 ∧
      (u = 365 → t = 3) ∧ (u = 365 → q = 24 → c = 3) := by
  refine ⟨min (doe / 36524) 3,
    min ((doe - 36524 * min (doe / 36524) 3) / 1461) 24,
    min ((doe - 36524 * min (doe / 36524) 3
      - 1461 * min ((doe - 36524 * min (doe / 36524) 3) / 1461) 24) / 365) 3,
    doe - 36524 * min (doe / 36524) 3
      - 1461 * min ((doe - 36524 * min (doe / 36524) 3) / 1461) 24
      - 365 * min ((doe - 36524 * min (doe / 36524) 3
      - 1461 * min ((doe - 36524 * min (doe / 36524) 3) / 1461) 24) / 365) 3, ?_⟩
  omega

theorem yearOfEra_spec (doe : Int) (h0 : 0 ≤ doe) (h1 : doe ≤ 146096) :
    0 ≤ yearOfEra doe ∧ yearOfEra doe ≤ 399 ∧ yearStart (yearOfEra doe) ≤ doe ∧
      doe < yearStart (yearOfEra doe + 1) := by
  obtain ⟨c, q, t, u, h, hc0, hc1, hq0, hq1, ht0, ht1, hu0, hu1, hleap, hcent⟩ :=
    parts_exist doe h0 h1
  have hy : yearOfEra doe = 100 * c + 4 * q + t :=
    yoe_of_parts doe c q t u h hc0 hc1 hq0 hq1 ht0 ht1 hu0 hu1 hleap hcent
  rw [hy]
  unfold yearStart
  have h4 : (100 * c + 4 * q + t) / 4 = 25 * c + q := by omega
  have h100 : (100 * c + 4 * q + t) / 100 = c := by omega
  have h400 : (100 * c + 4 * q + t) / 400 = 0 := by omega
  have k4 : (100 * c + 4 * q + t + 1) / 4 = 25 * c + q ∨
      ((100 * c + 4 * q + t + 1) / 4 = 25 * c + q + 1 ∧ t = 3) := by omega
  have k100 : (100 * c + 4 * q + t + 1) / 100 = c ∨
      ((100 * c + 4 * q + t + 1) / 100 = c + 1 ∧ t = 3 ∧ q = 24) := by omega
  have k400 : (100 * c + 4 * q + t + 1) / 400 = 0 ∨
      ((100 * c + 4 * q + t + 1) / 400 = 1 ∧ t = 3 ∧ q = 24 ∧ c = 3) := by omega
  refine ⟨by omega, by omega, by omega, ?_⟩
  rcases k4 with k4 | k4 <;> rcases k100 with k100 | k100 <;> rcases k400 with k400 | k400 <;>
    omega

theorem yearStart_lt (a b : Int) (h : a < b) : yearStart a < yearStart b := by
  unfold yearStart
  omega

theorem yearOfEra_unique (doe a : Int) (h0 : 0 ≤ doe) (h1 : doe ≤ 146096)
    (ha : yearStart a ≤ doe) (hb : doe < yearStart (a + 1)) : yearOfEra doe = a := by
  obtain ⟨_, _, h2, h3⟩ := yearOfEra_spec doe h0 h1
  by_contra hne
  rcases lt_or_gt_of_ne hne with hlt | hgt
  · have := yearStart_lt (yearOfEra doe) a hlt
    have h5 : yearStart (yearOfEra doe + 1) ≤ yearStart a := by
      rcases eq_or_lt_of_le (show yearOfEra doe + 1 ≤ a by omega) with he | hl
      · rw [he]
      · exact le_of_lt (yearStart_lt _ _ hl)
    omega
  · have h5 : yearStart (a + 1) ≤ yearStart (yearOfEra doe) := by
      rcases eq_or_lt_of_le (show a + 1 ≤ yearOfEra doe by omega) with he | hl
      · rw [he]
      · exact le_of_lt (yearStart_lt _ _ hl)
    omega

theorem civilFromDays_eq (n : Int) :
    civilFromDays n = civilOfYearDay (marchYear n) (dayOfMarchYear n) := rfl

theorem yearStart_succ (a : Int) :
    yearStart (a + 1) = yearStart a + 365 + (if (a + 1) % 4 = 0 then 1 else 0)
      - (if (a + 1) % 100 = 0 then 1 else 0) + (if (a + 1) % 400 = 0 then 1 else 0) := by
  unfold yearStart
  split_ifs <;> omega

theorem yearLength_eq (y era : Int) :
    yearLength (y + era * 400) = yearStart (y + 1) - yearStart y := by
  rw [yearStart_succ]
  unfold yearLength isLeapYear
  split_ifs <;> omega

/-- From a day number to the next, the day of the March-based year advances by one, or the
year ends and the next one starts at day 0. -/
theorem march_succ (n : Int) :
    0 ≤ dayOfMarchYear n ∧
    ((dayOfMarchYear n + 1 < yearLength (marchYear n) ∧ marchYear (n + 1) = marchYear n ∧
        dayOfMarchYear (n + 1) = dayOfMarchYear n + 1) ∨
      (dayOfMarchYear n + 1 = yearLength (marchYear n) ∧ marchYear (n + 1) = marchYear n + 1 ∧
        dayOfMarchYear (n + 1) = 0)) := by
  have h0 : 0 ≤ n + 719468 - (n + 719468) / 146097 * 146097 := by omega
  have h1 : n + 719468 - (n + 719468) / 146097 * 146097 ≤ 146096 := by omega
  obtain ⟨s0, s1, s2, s3⟩ := yearOfEra_spec _ h0 h1
  have hlen := yearLength_eq (yearOfEra (n + 719468 - (n + 719468) / 146097 * 146097))
    ((n + 719468) / 146097)
  have hU : ∀ y : Int, 0 ≤ y → y ≤ 399 → 365 * y + y / 4 - y / 100 = yearStart y := by
    intro y hy0 hy1
    unfold yearStart
    omega
  simp only [marchYear, dayOfMarchYear]
  rw [hU _ s0 s1]
  rw [hlen]
  generalize hE : (n + 719468) / 146097 = E at *
  generalize hd : n + 719468 - E * 146097 = doe at *
  by_cases hlast : doe < 146096
  · have hE2 : (n + 1 + 719468) / 146097 = E := by omega
    rw [hE2]
    have hd2 : n + 1 + 719468 - E * 146097 = doe + 1 := by omega
    rw [hd2]
    by_cases hin : doe + 1 < yearStart (yearOfEra doe + 1)
    · have hy := yearOfEra_unique (doe + 1) (yearOfEra doe) (by omega) (by omega) (by omega) hin
      rw [hy, hU _ s0 s1]
      refine ⟨by omega, Or.inl ⟨by omega, rfl, by omega⟩⟩
    · have hlt := yearStart_lt (yearOfEra doe + 1) (yearOfEra doe + 1 + 1) (by omega)
      have hy := yearOfEra_unique (doe + 1) (yearOfEra doe + 1) (by omega) (by omega)
        (by omega) (by omega)
      have h400 : yearStart 400 = 146097 := by decide
      have hne : yearOfEra doe ≠ 399 := by
        intro h
        rw [h] at hin
        have : yearStart (399 + 1) = 146097 := by decide
        omega
      rw [hy, hU _ (by omega) (by omega)]
      refine ⟨by omega, Or.inr ⟨by omega, by omega, by omega⟩⟩
  · have hdoe : doe = 146096 := by omega
    have hE2 : (n + 1 + 719468) / 146097 = E + 1 := by omega
    rw [hE2]
    have hd2 : n + 1 + 719468 - (E + 1) * 146097 = 0 := by omega
    rw [hd2]
    have hy0 : yearOfEra 0 = 0 := by decide
    have hy : yearOfEra doe = 399 := by
      rw [hdoe]
      decide
    rw [hy0, hy]
    have e1 : yearStart (399 + 1) = 146097 := by decide
    have e2 : yearStart 399 = 145731 := by decide
    have e3 : yearStart 0 = 0 := by decide
    rw [e1, e2, hdoe]
    refine ⟨by omega, Or.inr ⟨by omega, by omega, ?_⟩⟩
    norm_num

theorem civilOfYearDay_month (year u mp : Int) (h : (5 * u + 2) / 153 = mp) :
    civilOfYearDay year u =
      (if (if mp < 10 then mp + 3 else mp - 9) ≤ 2 then year + 1 else year,
        if mp < 10 then mp + 3 else mp - 9, u - (153 * mp + 2) / 5 + 1) := by
  unfold civilOfYearDay
  simp only [h]

theorem civilOfYearDay_succ (year u : Int) (h0 : 0 ≤ u) (h1 : u + 1 ≤ yearLength year) :
    nextDay (civilOfYearDay year u) =
      if u + 1 < yearLength year then civilOfYearDay year (u + 1)
      else civilOfYearDay (year + 1) 0 := by
  have hlen : yearLength year = 365 ∨ yearLength year = 366 := by
    unfold yearLength
    split_ifs <;> simp
  have hleap : isLeapYear (year + 1) ↔ yearLength year = 366 := by
    unfold yearLength
    split_ifs with h <;> simp [h]
  have hz : civilOfYearDay (year + 1) 0 = (year + 1, 3, 1) := by
    rw [civilOfYearDay_month (year + 1) 0 0 (by decide)]
    simp
  obtain ⟨mp, hmp⟩ : ∃ mp, (5 * u + 2) / 153 = mp := ⟨_, rfl⟩
  have hb0 : 0 ≤ mp := by omega
  have hb1 : mp ≤ 11 := by omega
  rw [civilOfYearDay_month year u mp hmp, hz]
  by_cases hsame : (5 * (u + 1) + 2) / 153 = mp
  · rw [civilOfYearDay_month year (u + 1) mp hsame]
    unfold nextDay daysInMonth
    interval_cases mp <;> simp [hleap] <;> split_ifs <;>
      first | rfl | omega | (simp; omega)
  · have hnext : (5 * (u + 1) + 2) / 153 = mp + 1 := by omega
    rw [civilOfYearDay_month year (u + 1) (mp + 1) hnext]
    unfold nextDay daysInMonth
    interval_cases mp <;> simp [hleap] <;> split_ifs <;>
      first | rfl | omega | (simp; omega) | (simp [Prod.ext_iff]; omega)

/-- The calendar date of the next day number is the date that follows by the rules of the
calendar. -/
theorem civilFromDays_succ (n : Int) : civilFromDays (n + 1) = nextDay (civilFromDays n) := by
  obtain ⟨h0, h⟩ := march_succ n
  rw [civilFromDays_eq, civilFromDays_eq, civilOfYearDay_succ _ _ h0 (by omega)]
  rcases h with ⟨h1, h2, h3⟩ | ⟨h1, h2, h3⟩
  · rw [if_pos h1, h2, h3]
  · rw [if_neg (by omega), h2, h3]

/-- Day number 0 is 1 January 1970. -/
theorem civilFromDays_epoch : civilFromDays 0 = (1970, 1, 1) := by decide

theorem civilOfYearDay_valid (year u : Int) (h0 : 0 ≤ u) (h1 : u + 1 ≤ yearLength year) :
    1 ≤ (civilOfYearDay year u).2.1 ∧ (civilOfYearDay year u).2.1 ≤ 12 ∧
      1 ≤ (civilOfYearDay year u).2.2 ∧
      (civilOfYearDay year u).2.2
        ≤ daysInMonth (civilOfYearDay year u).1 (civilOfYearDay year u).2.1 := by
  have hlen : yearLength year = 365 ∨ yearLength year = 366 := by
    unfold yearLength
    split_ifs <;> simp
  have hleap : isLeapYear (year + 1) ↔ yearLength year = 366 := by
    unfold yearLength
    split_ifs with h <;> simp [h]
  obtain ⟨mp, hmp⟩ : ∃ mp, (5 * u + 2) / 153 = mp := ⟨_, rfl⟩
  have hb0 : 0 ≤ mp := by omega
  have hb1 : mp ≤ 11 := by omega
  rw [civilOfYearDay_month year u mp hmp]
  unfold daysInMonth
  interval_cases mp <;> simp [hleap] <;> omega

/-- The month of a day number lies between 1 and 12, its day between 1 and the length of the
month. -/
theorem civilFromDays_valid (n : Int) :
    1 ≤ (civilFromDays n).2.1 ∧ (civilFromDays n).2.1 ≤ 12 ∧ 1 ≤ (civilFromDays n).2.2 ∧
      (civilFromDays n).2.2 ≤ daysInMonth (civilFromDays n).1 (civilFromDays n).2.1 := by
  obtain ⟨h0, h⟩ := march_succ n
  rw [civilFromDays_eq]
  exact civilOfYearDay_valid _ _ h0 (by omega)

/-- C21: `getEntriesByMonth` lists its keys in the order in which each month is first seen
in the collection, no key twice; the list of a key holds exactly the entries of the
collection whose local year and month are that key, in collection order, and is not empty;
so every entry is in the list of its own month and in no other. The key of an instant is the
year and the month, from 1 to 12, of the Gregorian calendar date of its local day, the day
whose 24 local hours contain the instant; the calendar date is 1 January 1970 for day 0 and,
from each day to the next, the date that follows by the rules of the calendar (month lengths
and leap years). In a zone two hours ahead of UTC an entry of 31 December 2023 at 23:30 UTC
is filed under 2024-01, at UTC under 2023-12, and 29 February 2024 under 2024-02. -/
theorem getEntriesByMonth_buckets (off : Int) (s : AppState) :
    (getEntriesByMonth off s).map Prod.fst
        = firstSeen (s.entries.map (fun e => monthYear off e.timestamp)) ∧
      ((getEntriesByMonth off s).map Prod.fst).Nodup ∧
      (∀ p ∈ getEntriesByMonth off s,
        p.2 = s.entries.filter (fun e => decide (monthYear off e.timestamp = p.1)) ∧
          p.2 ≠ []) ∧
      (∀ e ∈ s.entries, ∃ p ∈ getEntriesByMonth off s,
        p.1 = monthYear off e.timestamp ∧ e ∈ p.2 ∧
          ∀ q ∈ getEntriesByMonth off s, e ∈ q.2 → q = p) ∧
      (∀ t : Int,
        monthYear off t
            = ((civilFromDays (localDate off t)).1, (civilFromDays (localDate off t)).2.1) ∧
          localDate off t * msPerDay ≤ t + off ∧ t + off < (localDate off t + 1) * msPerDay ∧
          1 ≤ (monthYear off t).2 ∧ (monthYear off t).2 ≤ 12) ∧
      civilFromDays 0 = (1970, 1, 1) ∧
      (∀ n : Int, civilFromDays (n + 1) = nextDay (civilFromDays n)) ∧
      getEntriesByMonth 7200000 (readyState [entryDec31Late, entryMar09, entryFeb29, entryMar10])
        = [((2024, 1), [entryDec31Late]), ((2024, 3), [entryMar09, entryMar10]),
            ((2024, 2), [entryFeb29])] ∧
      getEntriesByMonth 0 (readyState [entryDec31Late, entryMar09, entryFeb29, entryMar10])
        = [((2023, 12), [entryDec31Late]), ((2024, 3), [entryMar09, entryMar10]),
            ((2024, 2), [entryFeb29])] := by
  obtain ⟨hkeys, hnd, hlists, hseen⟩ := getEntriesByMonth_invariant off s
  refine ⟨hkeys, hnd, hlists, ?_, ?_, civilFromDays_epoch, civilFromDays_succ, by decide,
    by decide⟩
  · intro e he
    obtain ⟨p, hp, hpk⟩ := List.mem_map.1 (hseen e he)
    refine ⟨p, hp, hpk, ?_, ?_⟩
    · rw [(hlists p hp).1, List.mem_filter]
      exact ⟨he, by simp [hpk]⟩
    · intro q hq heq
      rw [(hlists q hq).1, List.mem_filter] at heq
      have hqk : monthYear off e.timestamp = q.1 := of_decide_eq_true heq.2
      exact List.inj_on_of_nodup_map hnd hq hp (hqk.symm.trans hpk.symm)
  · intro t
    have hv := civilFromDays_valid (localDate off t)
    refine ⟨?_, ?_, ?_, ?_, ?_⟩
    · simp [monthYear, getFullYear, getMonth]
    · unfold localDate msPerDay
      omega
    · unfold localDate msPerDay
      omega
    · simp only [monthYear, getMonth]
      omega
    · simp only [monthYear, getMonth]
      omega

/-! ## Loading, the round trip through the store, the error channel -/

theorem asEntry_entryToJson (entry : Entry) : asEntry (entryToJson entry) = some entry := by
  obtain ⟨id, content, mood, image, timestamp⟩ := entry
  cases image <;> rfl

theorem mapM_asEntry_entryToJson (entries : List Entry) :
    (entries.map entryToJson).mapM asEntry = some entries := by
  induction entries with
  | nil => rfl
  | cons e t ih =>
    rw [List.map_cons, List.mapM_cons, asEntry_entryToJson, ih]
    rfl

theorem asEntries_toJson (entries : List Entry) : asEntries (toJson entries) = some entries :=
  mapM_asEntry_entryToJson entries

/-- C22: with no document in the store, `loadEntries` on the freshly mounted provider returns
normally and leaves the collection empty, the error absent and `loading` false; on any
state it keeps collection and error and ends with `loading` false. -/
theorem loadEntries_no_document (s : AppState) :
    readStore (initialState none) = ReadOutcome.noItem ∧
      (loadEntries ReadOutcome.noItem (initialState none)).2 = Except.ok () ∧
      (loadEntries ReadOutcome.noItem (initialState none)).1.entries = EntriesCell.kept [] ∧
      cellEntries (loadEntries ReadOutcome.noItem (initialState none)).1.entries = some [] ∧
      (loadEntries ReadOutcome.noItem (initialState none)).1.error = none ∧
      (loadEntries ReadOutcome.noItem (initialState none)).1.loading = false ∧
      (loadEntries ReadOutcome.noItem s).2 = Except.ok () ∧
      (loadEntries ReadOutcome.noItem s).1.entries = EntriesCell.kept s.entries ∧
      (loadEntries ReadOutcome.noItem s).1.error = s.error ∧
      (loadEntries ReadOutcome.noItem s).1.loading = false :=
  ⟨rfl, rfl, rfl, rfl, rfl, rfl, rfl, rfl, rfl, rfl⟩

/-- C23: the stored documents `null`, `{}` and a string are no sequences of entry records,
yet `loadEntries` sets no error for them and the parsed value itself becomes the content of
`entries`, which is then not the empty sequence. -/
theorem foreign_document_is_accepted :
    asEntries Json.null = none ∧
      (loadEntries (ReadOutcome.document Json.null) (initialState none)).1.error = none ∧
      (loadEntries (ReadOutcome.document Json.null) (initialState none)).1.entries
        = EntriesCell.parsed Json.null ∧
      cellEntries (loadEntries (ReadOutcome.document Json.null) (initialState none)).1.entries
        ≠ some [] ∧
      asEntries (Json.obj []) = none ∧
      (loadEntries (ReadOutcome.document (Json.obj [])) (initialState none)).1.error = none ∧
      (loadEntries (ReadOutcome.document (Json.obj [])) (initialState none)).1.entries
        = EntriesCell.parsed (Json.obj []) ∧
      asEntries (Json.str "journal") = none ∧
      (loadEntries (ReadOutcome.document (Json.str "journal")) (initialState none)).1.error
        = none ∧
      (loadEntries (ReadOutcome.document (Json.str "journal")) (initialState none)).1.entries
        = EntriesCell.parsed (Json.str "journal") := by
  refine ⟨rfl, rfl, rfl, ?_, rfl, rfl, rfl, rfl, rfl, rfl⟩
  intro h
  cases h

/-- What `loadEntries` does for each outcome of the read. Whatever the read yields, it
returns normally and ends with `loading` false. For a text that `JSON.parse` rejects, and
for a read that fails, it sets the error and keeps the collection, which is the empty
sequence on the freshly mounted provider. For a text that `JSON.parse` accepts it sets no
error and puts the parsed value into `entries`, whatever its shape. -/
theorem loadEntries_outcomes (read : ReadOutcome) (s : AppState) (err : String)
    (value : Json) :
    (loadEntries read s).2 = Except.ok () ∧
      (loadEntries read s).1.loading = false ∧
      ((loadEntries ReadOutcome.malformed s).1.error
          = some "Failed to load your journal entries" ∧
        (loadEntries ReadOutcome.malformed s).1.entries = EntriesCell.kept s.entries ∧
        cellEntries (loadEntries ReadOutcome.malformed (initialState s.stored)).1.entries
          = some []) ∧
      ((loadEntries (ReadOutcome.rejected err) s).1.error
          = some "Failed to load your journal entries" ∧
        (loadEntries (ReadOutcome.rejected err) s).1.entries = EntriesCell.kept s.entries ∧
        cellEntries (loadEntries (ReadOutcome.rejected err) (initialState s.stored)).1.entries
          = some []) ∧
      ((loadEntries (ReadOutcome.document value) s).1.error = s.error ∧
        (loadEntries (ReadOutcome.document value) s).1.entries = EntriesCell.parsed value) := by
  refine ⟨?_, ?_, ⟨rfl, rfl, rfl⟩, ⟨rfl, rfl, rfl⟩, ⟨rfl, rfl⟩⟩
  · cases read <;> rfl
  · cases read <;> rfl

/-- C24: for the collection that any sequence of `addEntry` calls builds on the freshly
mounted provider, calls without image argument included, loading the document that
`JSON.stringify` writes for it gives back the same sequence of entries, each with its id,
content, mood, image and timestamp, and sets no error; that document is what the store
yields after `saveEntries` wrote the collection. -/
theorem save_load_round_trip (calls : List AddCall) :
    cellEntries
        (loadEntries
          (ReadOutcome.document (toJson (addEntries calls (initialState none)).entries))
          (initialState none)).1.entries
      = some (addEntries calls (initialState none)).entries ∧
      (loadEntries
          (ReadOutcome.document (toJson (addEntries calls (initialState none)).entries))
          (initialState none)).1.error = none ∧
      (loadEntries
          (ReadOutcome.document (toJson (addEntries calls (initialState none)).entries))
          (initialState none)).2 = Except.ok () ∧
      (addEntries calls (initialState none)).entries
        = calls.map (fun c => Entry.mk c.uuid c.content c.mood c.imageUri c.now) ∧
      (∀ s : AppState,
        readStore (saveEntries none s (addEntries calls (initialState none)).entries).1
          = ReadOutcome.document (toJson (addEntries calls (initialState none)).entries)) := by
  refine ⟨asEntries_toJson _, rfl, rfl, ?_, fun _ => rfl⟩
  rw [addEntries_entries]
  rfl

/-- C25: the error is one cell holding one message or none. A load whose read or parse
fails, and an add, update or delete whose write fails, leave a message in it; `clearError`
empties it and leaves collection, loading flag and store as they are. -/
theorem error_channel (s : AppState) (err : String) (now : Int)
    (uuid content mood : String) (imageUri : ImageRef) (entryId : String)
    (updates : Updates) :
    (loadEntries (ReadOutcome.rejected err) s).1.error
        = some "Failed to load your journal entries" ∧
      (loadEntries ReadOutcome.malformed s).1.error
        = some "Failed to load your journal entries" ∧
      (addEntry now uuid (some err) s content mood imageUri).1.error
        = some "Failed to save your journal entry" ∧
      (updateEntry (some err) s entryId updates).1.error
        = some "Failed to update your journal entry" ∧
      (deleteEntry (some err) s entryId).1.error
        = some "Failed to delete your journal entry" ∧
      (clearError s).error = none ∧
      (clearError s).entries = s.entries ∧
      (clearError s).loading = s.loading ∧
      (clearError s).stored = s.stored ∧
      (clearError (addEntry now uuid (some err) s content mood imageUri).1).error = none ∧
      (clearError (addEntry now uuid (some err) s content mood imageUri).1).entries
        = (addEntry now uuid (some err) s content mood imageUri).1.entries :=
  ⟨rfl, rfl, rfl, rfl, rfl, rfl, rfl, rfl, rfl, rfl, rfl⟩

/-! ## Empty content -/

theorem jsTrim_of_blank (content : String)
    (hblank : ∀ c ∈ content.data, isJsWhitespace c = true) : jsTrim content = "" := by
  unfold jsTrim
  have h : content.data.dropWhile isJsWhitespace = [] :=
    List.dropWhile_eq_nil_iff.2 hblank
  rw [h]
  rfl

/-- C26: for a content that is empty or consists of white space only, and one of the five
moods, `content.trim()` is empty; `addEntry` called with that content and a succeeding
write appends the entry with that very content and returns its id; `handleSubmit` of the
add-entry form shows its alert and returns without calling `addEntry`, the state being
unchanged. -/
theorem blank_content (now : Int) (uuid : String) (writeError : Option String)
    (s : AppState) (content mood : String) (image : ImageRef)
    (hblank : ∀ c ∈ content.data, isJsWhitespace c = true)
    (_hmood : mood ∈ moodOptions.map (fun m => m.value)) :
    jsTrim content = "" ∧
      (addEntry now uuid none s content mood image).2 = Except.ok uuid ∧
      (addEntry now uuid none s content mood image).1.entries
        = s.entries ++ [Entry.mk uuid content mood image now] ∧
      handleSubmit now uuid writeError s content mood image = (s, SubmitOutcome.alerted) := by
  have h := jsTrim_of_blank content hblank
  refine ⟨h, rfl, rfl, ?_⟩
  unfold handleSubmit
  rw [if_pos h]

/-- C26 for a content of a space, a tab and a line feed, and for the empty content. -/
theorem blank_content_witness :
    (handleSubmit 1710068400000 "id-new" none (readyState [entryMar09]) " \t\n" "okay"
        ImageRef.null = (readyState [entryMar09], SubmitOutcome.alerted) ∧
      (addEntry 1710068400000 "id-new" none (readyState [entryMar09]) " \t\n" "okay"
        ImageRef.null).1.entries
        = [entryMar09] ++ [Entry.mk "id-new" " \t\n" "okay" ImageRef.null 1710068400000]) ∧
      (addEntry 1710068400000 "id-new" none (readyState [entryMar09]) "" "okay"
        ImageRef.null).2 = Except.ok "id-new" :=
  ⟨⟨(blank_content 1710068400000 "id-new" none (readyState [entryMar09]) " \t\n" "okay"
      ImageRef.null (by decide) (by decide)).2.2.2,
    (blank_content 1710068400000 "id-new" none (readyState [entryMar09]) " \t\n" "okay"
      ImageRef.null (by decide) (by decide)).2.2.1⟩,
    (blank_content 1710068400000 "id-new" none (readyState [entryMar09]) "" "okay"
      ImageRef.null (by decide) (by decide)).2.1⟩

/-! ## Dashboard stats and the streak walk -/

theorem stats_streak (off now : Int) (entries : List Entry) :
    (stats off now entries).streak = streak off now entries := by
  unfold stats streak
  split <;> rfl

theorem datesWithEntries_eq_nil (entries : List Entry) (h : ¬ entries.length > 0) :
    datesWithEntries entries = [] := by
  cases entries with
  | nil => rfl
  | cons a t => simp at h

/-- The walk of the streak: the `streak` days from the date of the cursor backward are in
the set of dates, and the day after them is not. -/
theorem streak_spec (off now : Int) (entries : List Entry) :
    (∀ i : Nat, i < streak off now entries →
        utcDate (setHoursZero off now) - i ∈ datesWithEntries entries) ∧
      utcDate (setHoursZero off now) - (streak off now entries : Nat)
        ∉ datesWithEntries entries := by
  unfold streak
  split
  · exact streakLoop_spec (datesWithEntries entries) (setHoursZero off now)
  · rename_i h
    rw [datesWithEntries_eq_nil entries h]
    exact ⟨fun i hi => absurd hi (Nat.not_lt_zero i), List.not_mem_nil _⟩

theorem run_le_dedup_length (dates : List Int) (d0 : Int) (k : Nat)
    (h : ∀ i : Nat, i < k → d0 - i ∈ dates) : k ≤ dates.dedup.length := by
  have hnd : ((List.range k).map (fun i : Nat => d0 - (i : Int))).Nodup := by
    apply List.Nodup.map_on _ (List.nodup_range k)
    intro x _ y _ hxy
    omega
  have hsub : (List.range k).map (fun i : Nat => d0 - (i : Int)) ⊆ dates.dedup := by
    intro d hd
    obtain ⟨i, hi, rfl⟩ := List.mem_map.1 hd
    exact List.mem_dedup.2 (h i (List.mem_range.1 hi))
  have hlen := (hnd.subperm hsub).length_le
  simpa using hlen

theorem run_unique (dates : List Int) (d0 : Int) (k k' : Nat)
    (h1 : ∀ i : Nat, i < k → d0 - i ∈ dates) (h2 : d0 - (k : Nat) ∉ dates)
    (h1' : ∀ i : Nat, i < k' → d0 - i ∈ dates) (h2' : d0 - (k' : Nat) ∉ dates) : k = k' := by
  rcases Nat.lt_trichotomy k k' with h | h | h
  · exact absurd (h1' k h) h2
  · exact h
  · exact absurd (h1 k' h) h2'

theorem streak_congr (off now : Int) (entries entries' : List Entry)
    (h : ∀ d, d ∈ datesWithEntries entries ↔ d ∈ datesWithEntries entries') :
    streak off now entries' = streak off now entries := by
  obtain ⟨a1, a2⟩ := streak_spec off now entries
  obtain ⟨b1, b2⟩ := streak_spec off now entries'
  exact run_unique (datesWithEntries entries) (utcDate (setHoursZero off now)) _ _
    (fun i hi => (h _).2 (b1 i hi)) (fun hmem => b2 ((h _).1 hmem)) a1 a2

/-- C27: for the empty collection the stats are total 0, thisMonth 0 and streak 0, at every
instant and for every offset. -/
theorem stats_of_no_entries (off now : Int) :
    stats off now [] = { total := 0, thisMonth := 0, streak := 0 } ∧
      streak off now [] = 0 :=
  ⟨rfl, rfl⟩

theorem streakLoop_le_length (dates : List Int) (checkDate : Int) :
    streakLoop dates checkDate 0 ≤ dates.length := by
  obtain ⟨h1, _⟩ := streakLoop_spec dates checkDate
  exact le_trans (run_le_dedup_length dates _ _ h1) (List.dedup_sublist dates).length_le

theorem streak_le_length (off now : Int) (entries : List Entry) :
    streak off now entries ≤ entries.length := by
  unfold streak
  split
  · have h := streakLoop_le_length (datesWithEntries entries) (setHoursZero off now)
    simpa [datesWithEntries] using h
  · exact Nat.zero_le _

theorem setHoursZeroIn_fixedZone (off t : Int) :
    setHoursZeroIn (fixedZone off) t = setHoursZero off t := rfl

theorem setDatePrevIn_fixedZone (off t : Int) :
    setDatePrevIn (fixedZone off) t = setDatePrev t := by
  unfold setDatePrevIn setDatePrev utcOfLocal localTime fixedZone
  simp only [offsetAtFrom, offsetOfLocalFrom]
  omega

theorem streakLoopIn_fixedZone (off : Int) (dates : List Int) :
    ∀ (fuel : Nat) (checkDate : Int) (currentStreak : Nat),
      streakLoop dates checkDate 0 < fuel →
      streakLoopIn (fixedZone off) dates fuel checkDate currentStreak
        = some (streakLoop dates checkDate currentStreak) := by
  intro fuel
  induction fuel with
  | zero => intro c acc h; exact absurd h (Nat.not_lt_zero _)
  | succ fuel ih =>
    intro c acc h
    unfold streakLoopIn
    by_cases hmem : utcDate c ∈ dates
    · rw [if_pos hmem, setDatePrevIn_fixedZone]
      rw [streakLoop_of_mem dates c hmem] at h
      rw [ih (setDatePrev c) (acc + 1) (by omega)]
      conv_rhs => rw [streakLoop, dif_pos hmem]
    · rw [if_neg hmem]
      conv_rhs => rw [streakLoop, dif_neg hmem]

theorem streakIn_fixedZone (off : Int) (fuel : Nat) (now : Int) (entries : List Entry)
    (h : entries.length < fuel) :
    streakIn (fixedZone off) fuel now entries = some (streak off now entries) := by
  unfold streakIn streak
  split
  · rw [setHoursZeroIn_fixedZone]
    apply streakLoopIn_fixedZone
    have h2 := streakLoop_le_length (datesWithEntries entries) (setHoursZero off now)
    have h3 : (datesWithEntries entries).length = entries.length := by
      simp [datesWithEntries]
    omega
  · rfl

theorem streakLoopIn_congr (zone : Zone) (dates dates' : List Int)
    (h : ∀ d, d ∈ dates ↔ d ∈ dates') :
    ∀ (fuel : Nat) (checkDate : Int) (currentStreak : Nat),
      streakLoopIn zone dates' fuel checkDate currentStreak
        = streakLoopIn zone dates fuel checkDate currentStreak := by
  intro fuel
  induction fuel with
  | zero => intro c acc; rfl
  | succ fuel ih =>
    intro c acc
    unfold streakLoopIn
    by_cases hmem : utcDate c ∈ dates
    · rw [if_pos hmem, if_pos ((h _).1 hmem), ih]
    · rw [if_neg hmem, if_neg (fun h2 => hmem ((h _).2 h2))]

theorem streakIn_congr (zone : Zone) (fuel : Nat) (now : Int) (entries entries' : List Entry)
    (h : ∀ d, d ∈ datesWithEntries entries ↔ d ∈ datesWithEntries entries') :
    streakIn zone fuel now entries' = streakIn zone fuel now entries := by
  have hlen : entries'.length > 0 ↔ entries.length > 0 := by
    constructor
    · intro h1
      cases entries' with
      | nil => simp at h1
      | cons a t =>
        have hm : utcDate a.timestamp ∈ datesWithEntries entries :=
          (h _).2 (by simp [datesWithEntries])
        cases entries with
        | nil => simp [datesWithEntries] at hm
        | cons b u => simp
    · intro h1
      cases entries with
      | nil => simp at h1
      | cons a t =>
        have hm : utcDate a.timestamp ∈ datesWithEntries entries' :=
          (h _).1 (by simp [datesWithEntries])
        cases entries' with
        | nil => simp [datesWithEntries] at hm
        | cons b u => simp
  unfold streakIn
  by_cases h1 : entries.length > 0
  · rw [if_pos h1, if_pos (hlen.2 h1)]
    exact streakLoopIn_congr zone _ _ h _ _ _
  · rw [if_neg h1, if_neg (fun h2 => h1 (hlen.1 h2))]

/-- C28: in the zone Europe/London at 11:00 UTC on 1 April 2024, with the single entry of
31 March 12:00 UTC, the walk tests local midnight of 1 April (31 March 23:00 UTC) and then
local midnight of 31 March (31 March 00:00 UTC); both have the date text of 31 March, so the
streak is 2 although there is one entry on one day. In a zone two hours ahead of UTC
throughout, with two entries on the local day 10 March (01:00 and 12:00) and none on
11 March, the streak at 01:00 on 11 March is 2 although only one local day holds entries. -/
theorem streak_exceeds_days_with_entries :
    streakIn europeLondon2024 10 1711969200000 [entryMar31] = some 2 ∧
      [entryMar31].length = 1 ∧
      utcDate (setHoursZeroIn europeLondon2024 1711969200000) = 19813 ∧
      utcDate (setDatePrevIn europeLondon2024
        (setHoursZeroIn europeLondon2024 1711969200000)) = 19813 ∧
      datesWithEntries [entryMar31] = [19813] ∧
      streakIn (fixedZone 7200000) 10 1710111600000 [entryMar09Late, entryMar10] = some 2 ∧
      localDate 7200000 entryMar09Late.timestamp = 19792 ∧
      localDate 7200000 entryMar10.timestamp = 19792 ∧
      localDate 7200000 1710111600000 = 19793 := by
  refine ⟨by decide, by decide, by decide, by decide, by decide, by decide, by decide,
    by decide, by decide⟩

theorem hasEntryOnLocalDay_zero (entries : List Entry) (day : Int) :
    hasEntryOnLocalDay 0 entries day ↔ day ∈ datesWithEntries entries := by
  unfold hasEntryOnLocalDay datesWithEntries localDate utcDate
  simp only [List.mem_map, Int.add_zero]

theorem utcDate_setHoursZero_zero (now : Int) :
    utcDate (setHoursZero 0 now) = localDate 0 now := by
  unfold utcDate setHoursZero localDate msPerDay
  omega

/-- C29, as stated, fails: in the zone Europe/London at 11:00 UTC on 28 October 2024, with
entries dated 27 and 28 October, the cursor starts on the date of 28 October and its next
date is 26 October (local midnight of 27 October is 26 October 23:00 UTC). The dates `d0`
and `d0 - 1` are both in `D`, so the largest run has length 2 at least, but the streak is
1. -/
theorem streak_skips_a_date :
    streakIn europeLondon2024 10 1730113200000 [entryOct27, entryOct28] = some 1 ∧
      utcDate (setHoursZeroIn europeLondon2024 1730113200000) = 20024 ∧
      utcDate (setDatePrevIn europeLondon2024
        (setHoursZeroIn europeLondon2024 1730113200000)) = 20022 ∧
      (∀ i : Nat, i < 2 →
        utcDate (setHoursZeroIn europeLondon2024 1730113200000) - i
          ∈ datesWithEntries [entryOct27, entryOct28]) := by
  refine ⟨by decide, by decide, by decide, by decide⟩

/-- C29, amended: in a zone whose offset is `off` throughout, the walk ends within as many
tests as there are entries plus one, and with `D` the dates of the entries (the text before
`T` of each timestamp) and `d0` the date of the cursor at local midnight of today, the
streak `k` is the largest number such that `d0, d0 - 1, ..., d0 - (k - 1)` are all in `D`,
0 when `d0` is not in `D`. In every zone the streak is the same for any collection with the
same set of dates, so for a reordered collection and for one with further entries on dates
already in `D`. At offset zero throughout it is the local-calendar-day streak. -/
theorem streak_depends_on_dates (off now : Int) (entries : List Entry) :
    (∀ fuel : Nat, entries.length < fuel →
        streakIn (fixedZone off) fuel now entries = some (streak off now entries)) ∧
      utcDate (setHoursZeroIn (fixedZone off) now) = utcDate (setHoursZero off now) ∧
      ((∀ i : Nat, i < streak off now entries →
          utcDate (setHoursZero off now) - i ∈ datesWithEntries entries) ∧
        (∀ k : Nat, (∀ i : Nat, i < k →
            utcDate (setHoursZero off now) - i ∈ datesWithEntries entries) →
          k ≤ streak off now entries)) ∧
      (utcDate (setHoursZero off now) ∉ datesWithEntries entries →
        streak off now entries = 0) ∧
      (∀ (zone : Zone) (fuel : Nat) (entries' : List Entry),
        (∀ d, d ∈ datesWithEntries entries ↔ d ∈ datesWithEntries entries') →
          streakIn zone fuel now entries' = streakIn zone fuel now entries) ∧
      (∀ (zone : Zone) (fuel : Nat) (entries' : List Entry), entries'.Perm entries →
        streakIn zone fuel now entries' = streakIn zone fuel now entries) ∧
      (∀ (zone : Zone) (fuel : Nat) (more : List Entry),
        (∀ e ∈ more, utcDate e.timestamp ∈ datesWithEntries entries) →
          streakIn zone fuel now (entries ++ more) = streakIn zone fuel now entries) ∧
      IsLocalDayStreak 0 now entries (streak 0 now entries) := by
  obtain ⟨h1, h2⟩ := streak_spec off now entries
  refine ⟨fun fuel h => streakIn_fixedZone off fuel now entries h, rfl, ⟨h1, ?_⟩, ?_, ?_, ?_,
    ?_, ?_⟩
  · intro k hk
    by_contra hlt
    exact h2 (hk _ (Nat.lt_of_not_le hlt))
  · intro h0
    by_contra hne
    have := h1 0 (Nat.pos_of_ne_zero hne)
    simp at this
    exact h0 this
  · intro zone fuel entries' h
    exact streakIn_congr zone fuel now entries entries' h
  · intro zone fuel entries' hperm
    apply streakIn_congr
    intro d
    exact ((hperm.map (fun entry => utcDate entry.timestamp)).mem_iff).symm
  · intro zone fuel more hmore
    apply streakIn_congr
    intro d
    unfold datesWithEntries
    rw [List.map_append, List.mem_append]
    constructor
    · exact Or.inl
    · rintro (h | h)
      · exact h
      · obtain ⟨e, he, rfl⟩ := List.mem_map.1 h
        exact hmore e he
  · obtain ⟨z1, z2⟩ := streak_spec 0 now entries
    rw [utcDate_setHoursZero_zero] at z1 z2
    exact ⟨fun i hi => (hasEntryOnLocalDay_zero entries _).2 (z1 i hi),
      fun h => z2 ((hasEntryOnLocalDay_zero entries _).1 h)⟩

/-- C29, amended, on the entries of 8, 9 and 10 March 2024: in a zone two hours ahead of UTC
throughout the walk gives the streak within four tests, and in Europe/London the reordered
collection and the collection with a further entry on 9 March have the streak of the
original one. -/
theorem streak_depends_on_dates_witness :
    streakIn (fixedZone 7200000) 4 1710064800000 [entryMar08, entryMar09, entryMar10]
        = some (streak 7200000 1710064800000 [entryMar08, entryMar09, entryMar10]) ∧
      streakIn europeLondon2024 10 1710064800000 [entryMar10, entryMar08, entryMar09]
        = streakIn europeLondon2024 10 1710064800000 [entryMar08, entryMar09, entryMar10] ∧
      streakIn europeLondon2024 10 1710064800000
          ([entryMar08, entryMar09, entryMar10] ++ [entryMar09Evening])
        = streakIn europeLondon2024 10 1710064800000 [entryMar08, entryMar09, entryMar10] :=
  ⟨(streak_depends_on_dates 7200000 1710064800000
      [entryMar08, entryMar09, entryMar10]).1 4 (by decide),
    (streak_depends_on_dates 7200000 1710064800000
      [entryMar08, entryMar09, entryMar10]).2.2.2.2.2.1 europeLondon2024 10
      [entryMar10, entryMar08, entryMar09] (by decide),
    (streak_depends_on_dates 7200000 1710064800000
      [entryMar08, entryMar09, entryMar10]).2.2.2.2.2.2.1 europeLondon2024 10
      [entryMar09Evening] (by decide)⟩

/-! ## The merge of `updateEntry` -/

/-- C30: `updateEntry` keeps the length of the collection and maps it position by position:
an entry of another id stays as it is, an entry of the given id becomes the entry whose
every field is the value that `updates` names for it, or the old value when `updates` names
none. -/
theorem updateEntry_merges_fields (writeError : Option String) (s : AppState)
    (entryId : String) (updates : Updates) :
    (updateEntry writeError s entryId updates).1.entries.length = s.entries.length ∧
      ∀ (i : Nat) (e : Entry), s.entries[i]? = some e →
        ∃ e' : Entry, (updateEntry writeError s entryId updates).1.entries[i]? = some e' ∧
          (e.id ≠ entryId → e' = e) ∧
          (e.id = entryId →
            MergedField updates.id e.id e'.id ∧
            MergedField updates.content e.content e'.content ∧
            MergedField updates.mood e.mood e'.mood ∧
            MergedField updates.image e.image e'.image ∧
            MergedField updates.timestamp e.timestamp e'.timestamp) := by
  rw [updateEntry_entries]
  refine ⟨List.length_map _ _, ?_⟩
  intro i e he
  refine ⟨if e.id = entryId then spread e updates else e, ?_, ?_, ?_⟩
  · rw [List.getElem?_map, he]
    rfl
  · intro hne
    rw [if_neg hne]
  · intro heq
    rw [if_pos heq]
    have hm : ∀ {α : Type} (named : Option α) (old : α),
        MergedField named old (named.getD old) := by
      intro α named old
      cases named with
      | none => exact ⟨fun v hv => (by cases hv), fun _ => rfl⟩
      | some w => exact ⟨fun v hv => (by cases hv; rfl), fun hv => (by cases hv)⟩
    exact ⟨hm _ _, hm _ _, hm _ _, hm _ _, hm _ _⟩

/-- C30 on a two-entry collection: the merge of content and mood into the second entry. -/
theorem updateEntry_merges_fields_witness :
    ∃ e' : Entry,
      (updateEntry none (readyState [entryMar09, entryMar10]) "id-10"
          (formUpdate "edited" "poor" ImageRef.null)).1.entries[1]? = some e' ∧
        (entryMar10.id ≠ "id-10" → e' = entryMar10) ∧
        (entryMar10.id = "id-10" →
          MergedField (formUpdate "edited" "poor" ImageRef.null).id entryMar10.id e'.id ∧
          MergedField (formUpdate "edited" "poor" ImageRef.null).content entryMar10.content
            e'.content ∧
          MergedField (formUpdate "edited" "poor" ImageRef.null).mood entryMar10.mood e'.mood ∧
          MergedField (formUpdate "edited" "poor" ImageRef.null).image entryMar10.image
            e'.image ∧
          MergedField (formUpdate "edited" "poor" ImageRef.null).timestamp entryMar10.timestamp
            e'.timestamp) :=
  (updateEntry_merges_fields none (readyState [entryMar09, entryMar10]) "id-10"
    (formUpdate "edited" "poor" ImageRef.null)).2 1 entryMar10 rfl

end Thymos
